import Mathlib

/-!
# Verification of the SQL-Exchange query-generation core

A shallow embedding of the query-generation machinery of the SQL-Exchange
repository (`src/query_generation/`): the error dictionary and response
classifier (`utils.check_special_errors`), the JSON repair engine
(`utils.validate_json_response`, `utils.fix_missing_comma`), the structural
validator (`utils.check_fields`, `utils.check_db_id`), the stats ledger
(`stats.Stats`) and the retry/aggregation skeleton of `core.run`.

Python dictionaries are modelled as association lists (`alGet` / `alSet`
mirror `d[k]` / `d[k] = v`), fallible Python code returns `Except PyExc`,
and `json.loads` of the Python standard library is modelled by a recursive
descent parser (`json_loads_list`) that follows CPython's `json` decoder,
reporting the same error classes and character offsets that the repository
inspects.
-/

set_option maxHeartbeats 1000000

namespace SQLExchange

/-! ## Association lists modelling Python `dict` -/

/-- `d[k]` for a Python dict modelled as an association list:
the value at the first matching key, if any. -/
def alGet {α : Type} : List (String × α) → String → Option α
  | [], _ => none
  | (k1, v1) :: t, k => if k1 = k then some v1 else alGet t k

/-- `d[k] = v` for a Python dict modelled as an association list:
replace the value at the first matching key, or append a new binding. -/
def alSet {α : Type} : List (String × α) → String → α → List (String × α)
  | [], k, v => [(k, v)]
  | (k1, v1) :: t, k, v => if k1 = k then (k1, v) :: t else (k1, v1) :: alSet t k v

/-! ## Python runtime values appearing in the stats ledger

`stats.Stats.full_stats` holds Python ints, floats, strings
(`model_origin` / `model_name` extra stats) and possibly `None`
(token counts of a failed response). Python floats are modelled as
rationals. -/

inductive StatVal where
  | int (n : Int)
  | float (q : Rat)
  | str (s : String)
  | none
deriving DecidableEq, Repr

/-- `isinstance(value, (int, float))` from `stats.Stats.add_stats`. -/
def isNumV : StatVal → Bool
  | .int _ => true
  | .float _ => true
  | _ => false

/-! ## Python exceptions raised by the embedded code -/

/-- The error classes of CPython's `json.JSONDecodeError` that the repository
distinguishes, with representative message text:
`expectingValue` = "Expecting value", `expectingCommaDelimiter` =
"Expecting ',' delimiter", `expectingColonDelimiter` = "Expecting ':' delimiter",
`expectingPropertyName` = "Expecting property name enclosed in double quotes",
`invalidEscape` = "Invalid \\escape", `invalidUEscape` = "Invalid \\uXXXX escape",
`invalidControlChar` = "Invalid control character ... at",
`unterminatedString` = "Unterminated string starting at",
`extraData` = "Extra data", `unexpectedBOM` = "Unexpected UTF-8 BOM". -/
inductive JErrKind where
  | expectingValue
  | expectingCommaDelimiter
  | expectingColonDelimiter
  | expectingPropertyName
  | invalidEscape (c : Char)
  | invalidUEscape
  | invalidControlChar (c : Char)
  | unterminatedString
  | extraData
  | unexpectedBOM
deriving DecidableEq, Repr

/-- A `json.JSONDecodeError`: error class plus the character offset `pos`
that CPython reports in the message suffix "(char pos)". -/
structure JErr where
  kind : JErrKind
  pos : Nat
deriving DecidableEq, Repr

/-- `"Expecting ',' delimiter" in str(e)`: of all decoder messages, exactly
the comma-delimiter error contains this substring. -/
def JErrKind.msgHasCommaDelimiter : JErrKind → Bool
  | .expectingCommaDelimiter => true
  | _ => false

/-- `"Invalid" in str(e) and "escape" in str(e)`: of all decoder messages,
exactly "Invalid \\escape" and "Invalid \\uXXXX escape" contain both words
("Invalid control character ... at" lacks "escape"). -/
def JErrKind.msgHasInvalidEscape : JErrKind → Bool
  | .invalidEscape _ => true
  | .invalidUEscape => true
  | _ => false

/-- Python exceptions crossing function boundaries in the embedded code. -/
inductive PyExc where
  | jsonDecode (e : JErr)
  | typeError
  | attributeError
  | keyError (k : String)
  | nameError
deriving DecidableEq, Repr

/-- `old + value` on ledger values, with Python's `+` semantics:
numbers add, strings concatenate, any other combination raises `TypeError`. -/
def pyAdd : StatVal → StatVal → Except PyExc StatVal
  | .int a, .int b => .ok (.int (a + b))
  | .int a, .float b => .ok (.float ((a : Rat) + b))
  | .float a, .int b => .ok (.float (a + (b : Rat)))
  | .float a, .float b => .ok (.float (a + b))
  | .str a, .str b => .ok (.str (a ++ b))
  | _, _ => .error .typeError

/-! ## JSON values

The result of `json.loads`: strings, ints, floats (plus the `NaN` /
`Infinity` constants CPython accepts), booleans, `None`, lists and dicts. -/

inductive PyVal where
  | str (s : String)
  | int (n : Int)
  | float (q : Rat)
  | bool (b : Bool)
  | null
  | nan
  | inf (neg : Bool)
  | list (xs : List PyVal)
  | dict (kvs : List (String × PyVal))

/-! ## A model of CPython's `json.loads`

`utils.validate_json_response` and `utils.fix_missing_comma` drive their
control flow off `json.loads` and the message and character offset of the
`json.JSONDecodeError` it raises. The recursive descent parser below follows
CPython's `json` decoder (`json/decoder.py` and the equivalent C scanner):
same dispatch order, same whitespace handling, same error classes and the
same character offsets for the errors the repository inspects. Recursion is
bounded by a fuel argument strictly larger than the recursion depth any
input of the given length can reach. -/

/-- JSON whitespace, CPython's `WHITESPACE_STR = ' \t\n\r'`. -/
def isJsonWs (c : Char) : Bool :=
  c.toNat == 32 || c.toNat == 9 || c.toNat == 10 || c.toNat == 13

/-- First index `j ≥ i` whose character is not JSON whitespace
(`WHITESPACE.match(s, i).end()`). -/
def skipWs (s : List Char) (i : Nat) : Nat := i + ((s.drop i).takeWhile isJsonWs).length

/-- `s[i:i+n]` as a character list. -/
def listSlice (s : List Char) (i n : Nat) : List Char := (s.drop i).take n

/-- A character ending a string chunk: CPython's `STRINGCHUNK` terminators
`"`, `\` or a control character below `0x20`. -/
def strChunkTerm (c : Char) : Bool := c == '"' || c == '\\' || decide (c.toNat < 0x20)

/-- Hexadecimal digit value, as accepted by `int(esc, 16)` on a plain digit. -/
def hexVal (c : Char) : Option Nat :=
  let n := c.toNat
  if 48 ≤ n ∧ n ≤ 57 then some (n - 48)
  else if 97 ≤ n ∧ n ≤ 102 then some (n - 87)
  else if 65 ≤ n ∧ n ≤ 70 then some (n - 55)
  else none

/-- `_decode_uXXXX(s, pos)`: read the four hex digits after the `u` at index
`pos`; on failure raise "Invalid \\uXXXX escape" at `pos`. -/
def decode_uXXXX (s : List Char) (pos : Nat) : Except JErr Nat :=
  match s[pos + 1]?, s[pos + 2]?, s[pos + 3]?, s[pos + 4]? with
  | some a, some b, some c, some d =>
    match hexVal a, hexVal b, hexVal c, hexVal d with
    | some x, some y, some z, some w => .ok (((x * 16 + y) * 16 + z) * 16 + w)
    | _, _, _, _ => .error ⟨.invalidUEscape, pos⟩
  | _, _, _, _ => .error ⟨.invalidUEscape, pos⟩

/-- The `BACKSLASH` dict of single-character escapes, as a lookup table. -/
def backslashTable : List (Char × Char) :=
  [('"', '"'), ('\\', '\\'), ('/', '/'), ('b', Char.ofNat 8), ('f', Char.ofNat 12),
   ('n', Char.ofNat 10), ('r', Char.ofNat 13), ('t', Char.ofNat 9)]

/-- `BACKSLASH[esc]`, `None` standing in for the `KeyError`. -/
def backslashMap (c : Char) : Option Char :=
  (backslashTable.find? (fun kv => kv.1 == c)).map Prod.snd

/-- `py_scanstring(s, end)` with `begin = end - 1` the index of the opening
quote: scan chunks up to the next terminator, handle escapes, return the
decoded string and the index one past the closing quote. A decoded code
point that is not a valid scalar value (a lone surrogate) is mapped through
`Char.ofNat`; no claim depends on such inputs. -/
def py_scanstring : Nat → List Char → Nat → Nat → String → Except JErr (String × Nat)
  | 0, _, _, begin_, _ => .error ⟨.unterminatedString, begin_⟩
  | fuel + 1, s, end_, begin_, acc =>
    match (s.drop end_).findIdx? strChunkTerm with
    | none => .error ⟨.unterminatedString, begin_⟩
    | some idx =>
      let j := end_ + idx
      let acc := acc ++ String.mk (listSlice s end_ idx)
      match s[j]? with
      | none => .error ⟨.unterminatedString, begin_⟩
      | some term =>
        if term == '"' then .ok (acc, j + 1)
        else if term != '\\' then .error ⟨.invalidControlChar term, j⟩
        else
          match s[j + 1]? with
          | none => .error ⟨.unterminatedString, begin_⟩
          | some esc =>
            if esc == 'u' then
              match decode_uXXXX s (j + 1) with
              | .error e => .error e
              | .ok uni =>
                if 0xd800 ≤ uni ∧ uni ≤ 0xdbff ∧ listSlice s (j + 6) 2 = ['\\', 'u'] then
                  match decode_uXXXX s (j + 7) with
                  | .error e => .error e
                  | .ok uni2 =>
                    if 0xdc00 ≤ uni2 ∧ uni2 ≤ 0xdfff then
                      let cp := 0x10000 + ((uni - 0xd800) * 1024 + (uni2 - 0xdc00))
                      py_scanstring fuel s (j + 12) begin_ (acc.push (Char.ofNat cp))
                    else
                      py_scanstring fuel s (j + 6) begin_ (acc.push (Char.ofNat uni))
                else
                  py_scanstring fuel s (j + 6) begin_ (acc.push (Char.ofNat uni))
            else
              match backslashMap esc with
              | none => .error ⟨.invalidEscape esc, j⟩
              | some ch => py_scanstring fuel s (j + 2) begin_ (acc.push ch)

/-- Digits of `s` starting at `i`, as in `NUMBER_RE`'s greedy `\d+`. -/
def digitsFrom (s : List Char) (i : Nat) : Nat := ((s.drop i).takeWhile Char.isDigit).length

/-- Numeric value of a digit run. -/
def digitsToNat (cs : List Char) : Nat := cs.foldl (fun a c => 10 * a + (c.toNat - 48)) 0

/-- `NUMBER_RE.match(s, idx)`: `(-?(?:0|[1-9]\d*))(\.\d+)?([eE][-+]?\d+)?`.
Returns the parsed value (`parse_int` when neither fraction nor exponent
matched, `parse_float` otherwise) and the match end. -/
def matchNumber (s : List Char) (i : Nat) : Option (PyVal × Nat) :=
  let (neg, i1) := if s[i]? == some '-' then (true, i + 1) else (false, i)
  match s[i1]? with
  | Option.none => none
  | some c =>
    if ¬ c.isDigit then none
    else
      let intEnd := if c == '0' then i1 + 1 else i1 + digitsFrom s i1
      let fracLen := if s[intEnd]? == some '.' then digitsFrom s (intEnd + 1) else 0
      let fracEnd := if fracLen > 0 then intEnd + 1 + fracLen else intEnd
      let hasExpChar := s[fracEnd]? == some 'e' || s[fracEnd]? == some 'E'
      let expSignLen := if hasExpChar ∧ (s[fracEnd + 1]? == some '+' || s[fracEnd + 1]? == some '-') then 1 else 0
      let expDigs := if hasExpChar then digitsFrom s (fracEnd + 1 + expSignLen) else 0
      let hasExp := hasExpChar ∧ expDigs > 0
      let endPos := if hasExp then fracEnd + 1 + expSignLen + expDigs else fracEnd
      let intDigits := digitsToNat (listSlice s i1 (intEnd - i1))
      if fracLen = 0 ∧ ¬ hasExp then
        some (.int (if neg then -(intDigits : Int) else (intDigits : Int)), endPos)
      else
        let mant : Int := (intDigits * 10 ^ fracLen : Nat) + (digitsToNat (listSlice s (intEnd + 1) fracLen) : Nat)
        let mant : Int := if neg then -mant else mant
        let expNeg := s[fracEnd + 1]? == some '-'
        let expVal : Int := if hasExp then (if expNeg then -(digitsToNat (listSlice s (fracEnd + 1 + expSignLen) expDigs) : Int) else (digitsToNat (listSlice s (fracEnd + 1 + expSignLen) expDigs) : Int)) else 0
        let e10 : Int := expVal - (fracLen : Int)
        let q : Rat := if 0 ≤ e10 then (mant : Rat) * (10 : Rat) ^ e10.toNat else (mant : Rat) / (10 : Rat) ^ (-e10).toNat
        some (.float q, endPos)

/-- `dict(pairs)`: fold the parsed key/value pairs into a dict — first
occurrence keeps its position, a duplicate key takes the later value. -/
def dictFromPairs (pairs : List (String × PyVal)) : List (String × PyVal) :=
  pairs.foldl (fun d kv => alSet d kv.1 kv.2) []

/-- A pending parse obligation of the decoder: one value at an index
(`_scan_once`), an array or object just after its opening bracket
(`JSONArray` / `JSONObject`), or their element/member loops carrying the
values collected so far. A single frame type lets the whole decoder be one
structural recursion on fuel, so that its results compute by `rfl`. -/
inductive ScanFrame where
  | value (i : Nat)
  | arrayStart (i : Nat)
  | arrayLoop (i : Nat) (acc : List PyVal)
  | objectStart (i : Nat)
  | objectLoop (i : Nat) (pairs : List (String × PyVal))

/-- One decoder, all frames. `.ok none` models `StopIteration(idx)` raised
by `_scan_once` (no value at the requested index), which enclosing frames
convert to an "Expecting value" error; bracket frames never produce it.

`.value i` is `_scan_once(string, i)`: dispatch on the character at `i`
(string, object, array, the three keyword constants, `NUMBER_RE`, then the
`NaN` / `Infinity` / `-Infinity` constants, else StopIteration).
`.arrayStart` / `.arrayLoop` are `JSONArray`: after each element expect `]`
or `,`; any other character is "Expecting ',' delimiter" at that index.
`.objectStart` / `.objectLoop` are `JSONObject`: scan a key (the loop index
is one past the key's opening quote), expect `:`, scan the value, then
expect `}` or `,` with the same comma-delimiter error. -/
def scanStep : Nat → List Char → ScanFrame → Except JErr (Option (PyVal × Nat))
  | 0, _, fr =>
    match fr with
    | .value _ => .ok none
    | .arrayStart i => .error ⟨.expectingValue, i⟩
    | .arrayLoop i _ => .error ⟨.expectingValue, i⟩
    | .objectStart i => .error ⟨.expectingValue, i⟩
    | .objectLoop i _ => .error ⟨.expectingValue, i⟩
  | fuel + 1, s, fr =>
    match fr with
    | .value i =>
      match s[i]? with
      | Option.none => .ok none
      | some c =>
        if c == '"' then
          match py_scanstring (s.length + 1) s (i + 1) i "" with
          | .error e => .error e
          | .ok (str, e1) => .ok (some (.str str, e1))
        else if c == '{' then scanStep fuel s (.objectStart (i + 1))
        else if c == '[' then scanStep fuel s (.arrayStart (i + 1))
        else if listSlice s i 4 = ['n', 'u', 'l', 'l'] then .ok (some (.null, i + 4))
        else if listSlice s i 4 = ['t', 'r', 'u', 'e'] then .ok (some (.bool true, i + 4))
        else if listSlice s i 5 = ['f', 'a', 'l', 's', 'e'] then .ok (some (.bool false, i + 5))
        else
          match matchNumber s i with
          | some (v, e1) => .ok (some (v, e1))
          | Option.none =>
            if c == 'N' ∧ listSlice s i 3 = ['N', 'a', 'N'] then .ok (some (.nan, i + 3))
            else if c == 'I' ∧ listSlice s i 8 = "Infinity".toList then .ok (some (.inf false, i + 8))
            else if c == '-' ∧ listSlice s i 9 = "-Infinity".toList then .ok (some (.inf true, i + 9))
            else .ok none
    | .arrayStart end_ =>
      let end1 := if (s[end_]?.any isJsonWs) then skipWs s (end_ + 1) else end_
      if s[end1]? == some ']' then .ok (some (.list [], end1 + 1))
      else scanStep fuel s (.arrayLoop end1 [])
    | .arrayLoop i acc =>
      match scanStep fuel s (.value i) with
      | .error e => .error e
      | .ok Option.none => .error ⟨.expectingValue, i⟩
      | .ok (some (v, e1)) =>
        let acc := acc ++ [v]
        let e2 := if (s[e1]?.any isJsonWs) then skipWs s (e1 + 1) else e1
        match s[e2]? with
        | some ']' => .ok (some (.list acc, e2 + 1))
        | some ',' => scanStep fuel s (.arrayLoop (skipWs s (e2 + 1)) acc)
        | _ => .error ⟨.expectingCommaDelimiter, e2⟩
    | .objectStart end_ =>
      if s[end_]? == some '"' then scanStep fuel s (.objectLoop (end_ + 1) [])
      else
        let end1 := if (s[end_]?.any isJsonWs) then skipWs s end_ else end_
        if s[end1]? == some '}' then .ok (some (.dict [], end1 + 1))
        else if s[end1]? == some '"' then scanStep fuel s (.objectLoop (end1 + 1) [])
        else .error ⟨.expectingPropertyName, end1⟩
    | .objectLoop i pairs =>
      match py_scanstring (s.length + 1) s i (i - 1) "" with
      | .error e => .error e
      | .ok (key, e1) =>
        let e2 := if s[e1]? != some ':' then skipWs s e1 else e1
        if s[e2]? != some ':' then .error ⟨.expectingColonDelimiter, e2⟩
        else
          let e3 := skipWs s (e2 + 1)
          match scanStep fuel s (.value e3) with
          | .error e => .error e
          | .ok Option.none => .error ⟨.expectingValue, e3⟩
          | .ok (some (v, e4)) =>
            let pairs := pairs ++ [(key, v)]
            let e5 := if (s[e4]?.any isJsonWs) then skipWs s (e4 + 1) else e4
            match s[e5]? with
            | some '}' => .ok (some (.dict (dictFromPairs pairs), e5 + 1))
            | some ',' =>
              let e6 := skipWs s (e5 + 1)
              if s[e6]? == some '"' then scanStep fuel s (.objectLoop (e6 + 1) pairs)
              else .error ⟨.expectingPropertyName, e6⟩
            | _ => .error ⟨.expectingCommaDelimiter, e5⟩

/-- `_scan_once(string, idx)`. -/
def scan_once (fuel : Nat) (s : List Char) (i : Nat) : Except JErr (Option (PyVal × Nat)) :=
  scanStep fuel s (.value i)

/-- `json.loads` on a character list: reject a BOM, skip leading whitespace,
scan one value, skip trailing whitespace and reject extra data. The fuel
`2 * length + 4` strictly exceeds the recursion depth reachable on the
input (each nesting level and each element consumes at least one character). -/
def json_loads_list (s : List Char) : Except JErr PyVal :=
  if s.head? = some (Char.ofNat 0xFEFF) then .error ⟨.unexpectedBOM, 0⟩
  else
    let idx := skipWs s 0
    match scan_once (2 * s.length + 4) s idx with
    | .error e => .error e
    | .ok Option.none => .error ⟨.expectingValue, idx⟩
    | .ok (some (v, e1)) =>
      let e2 := skipWs s e1
      if e2 ≠ s.length then .error ⟨.extraData, e2⟩ else .ok v

/-! ## `query_generation/utils.py` -/

/-- The per-attempt error dictionary: name-to-boolean, as `core.DEFAULT_ERRORS`. -/
abbrev ErrDict := List (String × Bool)

/-- `core.DEFAULT_ERRORS`, copied fresh at the start of every attempt. -/
def DEFAULT_ERRORS : ErrDict :=
  [("empty_output", false), ("fields_mismatch", false), ("db_id_matching", false),
   ("recitation", false), ("max_token", false), ("invalid_escape", false),
   ("json_decode", false), ("unexpected", false)]

/-- Python `str.upper()` on the ASCII sentinels the repository compares:
character-wise upper-casing. -/
def pyUpper (s : String) : String := String.mk (s.data.map Char.toUpper)

/-- `utils.check_special_errors(errors, response_text, finish_reason=None)`:
empty text sets `empty_output` and fails; otherwise `finish_reason.upper()`
is compared with `"MAX_TOKEN"` and then `"RECITATION"`; a `None`
`finish_reason` raises `AttributeError` at `finish_reason.upper()`.
Returns the mutated error dict and the boolean result. -/
def check_special_errors (errors : ErrDict) (response_text : String)
    (finish_reason : Option String) : Except PyExc (ErrDict × Bool) :=
  if response_text.length = 0 then .ok (alSet errors "empty_output" true, false)
  else
    match finish_reason with
    | none => .error .attributeError
    | some fr =>
      if pyUpper fr = "MAX_TOKEN" then .ok (alSet errors "max_token" true, false)
      else if pyUpper fr = "RECITATION" then .ok (alSet errors "recitation" true, false)
      else .ok (errors, true)

/-- `content[:pos].rfind(c)`: the last index of `c`, or `-1`. -/
def rfindChar (cs : List Char) (c : Char) : Int :=
  match cs.reverse.findIdx? (· == c) with
  | some k => ((cs.length - 1 - k : Nat) : Int)
  | none => -1

/-- Python string indexing with negative wrap-around (`content[i]`). -/
def pyCharAt (cs : List Char) (i : Int) : Option Char :=
  if i < 0 then
    if i.natAbs ≤ cs.length then cs[cs.length - i.natAbs]? else none
  else cs[i.toNat]?

/-- `utils.fix_missing_comma(content)`: parse; while the decoder reports
"Expecting ',' delimiter", take the reported character offset, move it back
to the last preceding newline when the character before that newline is not
already a comma, insert a comma there, and recurse on the modified text.
An invalid-escape error yields `(False, None, "invalid_escape")`, any other
error `(False, None, "json_decode")`. The source recursion has no depth
bound; `none` models a run that exhausts the `fuel` bound without settling
(the spec flags this unbounded recursion as an open question). -/
def fix_missing_comma : Nat → List Char → Option (Bool × Option PyVal × Option String)
  | 0, _ => none
  | fuel + 1, content =>
    match json_loads_list content with
    | .ok json_obj => some (true, some json_obj, none)
    | .error e =>
      if e.kind.msgHasCommaDelimiter then
        let error_pos : Nat := e.pos
        let last_newline : Int := rfindChar (content.take error_pos) '\n'
        let error_pos : Nat :=
          if last_newline ≠ -1 ∧ pyCharAt content (last_newline - 1) ≠ some ',' then
            last_newline.toNat
          else error_pos
        fix_missing_comma fuel (content.take error_pos ++ ',' :: content.drop error_pos)
      else if e.kind.msgHasInvalidEscape then some (false, none, some "invalid_escape")
      else some (false, none, some "json_decode")

/-- `utils.validate_json_response(errors, response_text)`: parse the text;
on success return `(parsed, False)`. On a comma-delimiter error call
`fix_missing_comma`; when it reports success the source then re-executes
`json.loads(response_text)` on the ORIGINAL text inside the exception
handler (a leftover line binding `loaded_json`), which raises the same
decode error again and propagates it out of the function; were that line
absent, `json.loads(fixed_response)` would raise `TypeError` because
`fix_missing_comma` returns the parsed object, not the repaired text.
On a failed fix the reported error name is set in `errors`; an
invalid-escape or other decode error sets its flag; those paths return
`(None, None)`. `none` models non-termination of the `fix_missing_comma`
recursion (never reached with adequate fuel). -/
def validate_json_response (fuel : Nat) (errors : ErrDict) (response_text : List Char) :
    Option (Except PyExc (ErrDict × Option PyVal × Option Bool)) :=
  match json_loads_list response_text with
  | .ok loaded_json => some (.ok (errors, some loaded_json, some false))
  | .error e =>
    if e.kind.msgHasCommaDelimiter then
      match fix_missing_comma fuel response_text with
      | none => none
      | some (comma_fixed, _fixed_response, error_type) =>
        if comma_fixed then
          match json_loads_list response_text with
          | .error e2 => some (.error (.jsonDecode e2))
          | .ok _ => some (.error .typeError)
        else
          match error_type with
          | some et => some (.ok (alSet errors et true, none, none))
          | none => some (.ok (errors, none, none))
    else if e.kind.msgHasInvalidEscape then
      some (.ok (alSet errors "invalid_escape" true, none, none))
    else
      some (.ok (alSet errors "json_decode" true, none, none))

/-- `utils.check_fields(response, fields)` for an array response (the call
site passes the parsed record sequence): every record's key set must have
the same size as `fields` and contain every required field; a non-dict
record raises `AttributeError` at `question.keys()`. -/
def check_fields (response : List PyVal) (fields : List String) : Except PyExc Bool :=
  match response with
  | [] => .ok true
  | question :: rest =>
    match question with
    | .dict kvs =>
      let keys := kvs.map Prod.fst
      if keys.length ≠ fields.length then .ok false
      else if fields.any (fun field => ¬ keys.contains field) then .ok false
      else check_fields rest fields
    | _ => .error .attributeError

/-- `response[key]` on a parsed JSON value: dict lookup raising `KeyError`
for a missing key, `TypeError` for a non-dict. -/
def pyGetItem (v : PyVal) (k : String) : Except PyExc PyVal :=
  match v with
  | .dict kvs =>
    match alGet kvs k with
    | some x => .ok x
    | none => .error (.keyError k)
  | _ => .error .typeError

/-- Python `!=` between a parsed JSON value and a `str`-or-`None` argument:
unequal types are simply unequal, and JSON `null` equals Python `None`. -/
def pyValNe (v : PyVal) (x : Option String) : Bool :=
  match x with
  | some s => match v with | .str t => decide (t ≠ s) | _ => true
  | none => match v with | .null => false | _ => true

/-- Python truthiness of a `str`-or-`None` value (`if target_db_id`). -/
def truthyStr : Option String → Bool
  | none => false
  | some s => decide (s ≠ "")

/-- The record fold of `utils.check_db_id`, carrying the `failed` counter. -/
def check_db_id_go (db_id : Option String) (target_db_id : Option String) :
    List PyVal → Int → Except PyExc Int
  | [], failed => .ok failed
  | response :: rest, failed =>
    match pyGetItem response "source_db_id" with
    | .error exc => .error exc
    | .ok sv =>
      let failed := if pyValNe sv db_id then failed + 1 else failed
      if truthyStr target_db_id then
        match pyGetItem response "target_db_id" with
        | .error exc => .error exc
        | .ok tv =>
          check_db_id_go db_id target_db_id rest (if pyValNe tv target_db_id then failed + 1 else failed)
      else check_db_id_go db_id target_db_id rest failed

/-- `utils.check_db_id(db_id, json_obj, target_db_id)`: for each record add
one to `failed` when `response['source_db_id'] != db_id`, and — when
`target_db_id` is truthy — one more when `response['target_db_id'] !=
target_db_id`; a record lacking either key raises `KeyError`. -/
def check_db_id (db_id : Option String) (json_obj : List PyVal)
    (target_db_id : Option String) : Except PyExc Int :=
  check_db_id_go db_id target_db_id json_obj 0

/-! ## `query_generation/stats.py` -/

/-- The `full_stats` dictionary of a ledger. -/
abbrev StatsD := List (String × StatVal)

/-- The default counters of `Stats.__init__`, all Python ints `0`. -/
def default_full_stats : StatsD :=
  [("time_taken", .int 0), ("real_time", .int 0), ("input_token", .int 0),
   ("output_token", .int 0), ("request", .int 0), ("response", .int 0),
   ("success_response", .int 0), ("error_response", .int 0),
   ("corrected_response", .int 0), ("unexpected_error", .int 0)]

/-- One entry of `skipped_db_prompts`, as built by
`Stats.add_skipped_db_prompt`. -/
structure SkippedPrompt where
  system_prompt : String
  prompt : String
  db_id : String
  questions : List PyVal
  errors : ErrDict

/-- A `stats.Stats` ledger: the counter dict, the unexpected-error list and
the skipped-prompt audit list. -/
structure Stats where
  full_stats : StatsD
  unexpected_errors : List String
  skipped_db_prompts : List SkippedPrompt

/-- `Stats(extra_stats)` (and equally `reset_stats` back to the captured
default template): the default counters updated with the extra stats, empty
error and skip lists. -/
def Stats.init (extra_stats : StatsD) : Stats :=
  { full_stats := extra_stats.foldl (fun d kv => alSet d kv.1 kv.2) default_full_stats,
    unexpected_errors := [], skipped_db_prompts := [] }

/-- The loop of `Stats.add_stats(stats)` over the input items:
`if key in self.full_stats and isinstance(value, (int, float)):
self.full_stats[key] += value`. The `+=` raises `TypeError` when the
current ledger value is non-numeric. -/
def add_stats_fold : List (String × StatVal) → StatsD → Except PyExc StatsD
  | [], fs => .ok fs
  | (key, value) :: rest, fs =>
    match alGet fs key, isNumV value with
    | some old, true =>
      match pyAdd old value with
      | .ok nv => add_stats_fold rest (alSet fs key nv)
      | .error exc => .error exc
    | _, _ => add_stats_fold rest fs

/-- `Stats.add_stats`. -/
def Stats.add_stats (st : Stats) (stats : List (String × StatVal)) : Except PyExc Stats :=
  match add_stats_fold stats st.full_stats with
  | .ok fs => .ok { st with full_stats := fs }
  | .error exc => .error exc

/-- `Stats.add_unexpected_error(error)`: append the message and
`self.full_stats["unexpected_error"] += 1` (a `KeyError` if the counter
was removed from the dict). -/
def Stats.add_unexpected_error (st : Stats) (error : String) : Except PyExc Stats :=
  match alGet st.full_stats "unexpected_error" with
  | none => .error (.keyError "unexpected_error")
  | some old =>
    match pyAdd old (.int 1) with
    | .ok nv =>
      .ok { st with unexpected_errors := st.unexpected_errors ++ [error],
                    full_stats := alSet st.full_stats "unexpected_error" nv }
    | .error exc => .error exc

/-- `Stats.add_skipped_db_prompt`. -/
def Stats.add_skipped_db_prompt (st : Stats) (p : SkippedPrompt) : Stats :=
  { st with skipped_db_prompts := st.skipped_db_prompts ++ [p] }

/-! ## `query_generation/model.py` -/

/-- The `finish_reason` normalization of `CustomModel.__generate_google`
(lines 177–185): the provider's finish reason, upper-cased, is mapped onto
the sentinels `"RECITATION"` and `"MAX_TOKENS"`, anything else to `""`
(the integer alternatives `4` and `2` of the `match` can never equal an
upper-cased string and are dropped). `__generate_openai` always returns
`""`. -/
def google_finish_reason (raw : String) : String :=
  if pyUpper raw = "4" ∨ pyUpper raw = "RECITATION" then "RECITATION"
  else if pyUpper raw = "2" ∨ pyUpper raw = "MAX_TOKENS" then "MAX_TOKENS"
  else ""

/-! ## `query_generation/core.py` — the retry controller and aggregation

The run driver is modelled as a fold over an environment describing, for
each prompt batch, what each attempt's generation-plus-validation would
produce. File writes and console prints are modelled as emitted events
where a claim depends on them (the abort path); timestamps and ANSI colors
of `current_time_text` are abstracted away, as are the `tqdm` progress
bars, the response files and the max-token reminder counter (none of which
feed back into control flow or counters). -/

/-- An observable output of the abort path: a console print or a
`write_stats` flush of a ledger snapshot to the output sink. -/
inductive Ev where
  | print (msg : String)
  | statsWrite (level : Nat) (snapshot : StatsD)

/-- Whether an event flushes a ledger to the output sink. -/
def Ev.isStatsWrite : Ev → Bool
  | .statsWrite _ _ => true
  | _ => false

/-- `core.max_fail_exit(error)` (lines 322–330): print three diagnostics and
`exit(1)`. The `TODO` in the source notes that stats are *not* saved here;
accordingly no `statsWrite` event is emitted. Returns the emitted events and
the process exit code. -/
def max_fail_exit (error : String) : List Ev × Nat :=
  ([.print "Max fail limit reached", .print ("Error: " ++ error), .print "Exiting..."], 1)

/-- The token/time fields of one `model.generate` response, as passed to
`current_stats.add_stats` (core lines 512–516): `time_taken` a float,
the token counts ints or `None`. -/
structure GenMeta where
  time_taken : StatVal
  prompt_token_count : StatVal
  response_token_count : StatVal

/-- The dict literal of core lines 512–516. -/
def metaStats (m : GenMeta) : List (String × StatVal) :=
  [("time_taken", m.time_taken), ("input_token", m.prompt_token_count),
   ("output_token", m.response_token_count)]

/-- What one attempt of the loop at core lines 471–564 amounts to, as
provided by the environment: the generation call raised (`unexpected`),
or it returned and classifier/repair/validation left some error flag set
(`failed`), or every check passed and the loop `break`s (`accepted`, with
`fixed` from the repair engine). -/
inductive AttemptOutcome where
  | unexpected (msg : String)
  | failed (meta : GenMeta)
  | accepted (fixed : Bool) (meta : GenMeta)

/-- Result of one loop iteration: the run aborted via `max_fail_exit`, the
attempt failed and the loop continues, or the attempt was accepted and the
loop breaks. -/
inductive StepRes where
  | exited (events : List Ev) (code : Nat)
  | failedCont (st : Stats) (counter : Nat)
  | accepted (st : Stats) (counter : Nat)

/-- One iteration of the attempt loop (core lines 471–564), restricted to
its effect on the source-unit ledger and the run-wide failure counter:
`add_stats({"request": 1})`; on an unexpected exception record it, bump
`max_fail_counter` and abort via `max_fail_exit` once it reaches
`MAX_FAIL_LIMIT`; otherwise add the response's token/time stats, then
either `error_response` or (`corrected_response` / `success_response`,
breaking the loop). -/
def attempt_step (limit : Nat) (st : Stats) (counter : Nat) (o : AttemptOutcome) :
    Except PyExc StepRes :=
  match st.add_stats [("request", .int 1)] with
  | .error exc => .error exc
  | .ok st =>
    match o with
    | .unexpected msg =>
      match st.add_unexpected_error msg with
      | .error exc => .error exc
      | .ok st =>
        let counter := counter + 1
        if limit ≤ counter then .ok (.exited (max_fail_exit msg).1 (max_fail_exit msg).2)
        else .ok (.failedCont st counter)
    | .failed m =>
      match st.add_stats (metaStats m) with
      | .error exc => .error exc
      | .ok st =>
        match st.add_stats [("error_response", .int 1)] with
        | .error exc => .error exc
        | .ok st => .ok (.failedCont st counter)
    | .accepted fixed m =>
      match st.add_stats (metaStats m) with
      | .error exc => .error exc
      | .ok st =>
        match st.add_stats [(if fixed then "corrected_response" else "success_response", .int 1)] with
        | .error exc => .error exc
        | .ok st => .ok (.accepted st counter)

/-- Result of one prompt batch: aborted, or done with the updated ledger,
counter, and whether the batch was `Accepted` (`true`) or `Skipped`
(`false`). -/
inductive BatchRes where
  | exited (events : List Ev) (code : Nat)
  | done (st : Stats) (counter : Nat) (accepted : Bool)

/-- The attempt loop of one prompt batch: `range(max_retry_per_prompt)`
yields one environment outcome per potential attempt. With an empty range
the loop body never runs and the `sum(errors.values())` test after the loop
reads the unbound `errors` variable — a `NameError`. A batch whose attempts
are exhausted without acceptance ends `Skipped`. -/
def run_batch (limit : Nat) (st : Stats) (counter : Nat) :
    List AttemptOutcome → Except PyExc BatchRes
  | [] => .error .nameError
  | o :: rest =>
    match attempt_step limit st counter o with
    | .error exc => .error exc
    | .ok (.exited ev c) => .ok (.exited ev c)
    | .ok (.accepted st c) => .ok (.done st c true)
    | .ok (.failedCont st c) =>
      match rest with
      | [] => .ok (.done st c false)
      | _ => run_batch limit st c rest

/-- One source unit's batches (core lines 453–602): fold `run_batch` over
the batches, appending a skip-audit record to the *pipeline* ledger for
each skipped batch (core line 570). -/
def run_unit_batches (limit : Nat) (cur pipe : Stats) (counter : Nat) (db_id : String) :
    List (List AttemptOutcome) → Except PyExc (Sum (List Ev × Nat) (Stats × Stats × Nat))
  | [] => .ok (.inr (cur, pipe, counter))
  | b :: rest =>
    match run_batch limit cur counter b with
    | .error exc => .error exc
    | .ok (.exited ev c) => .ok (.inl (ev, c))
    | .ok (.done cur c accepted) =>
      let pipe := if accepted then pipe
        else pipe.add_skipped_db_prompt ⟨"", "", db_id, [], DEFAULT_ERRORS⟩
      run_unit_batches limit cur pipe c db_id rest

/-- `success_response + error_response + corrected_response` read from a
ledger dict, as in the `"response"` entry of core lines 603–606; a missing
key raises `KeyError`. -/
def statsResponseValue (fs : StatsD) : Except PyExc StatVal :=
  match alGet fs "success_response", alGet fs "error_response", alGet fs "corrected_response" with
  | some a, some b, some c =>
    match pyAdd a b with
    | .error exc => .error exc
    | .ok ab => pyAdd ab c
  | _, _, _ => .error (.keyError "success_response")

/-- One source unit described by the environment: its id, its prompt
batches and the wall-clock `real_time` of core line 605. -/
structure UnitEnv where
  db_id : String
  batches : List (List AttemptOutcome)
  real_time : StatVal

/-- One source unit (core lines 428–611): reset `current_stats`, run the
batches, add the derived `"response"` and `"real_time"` entries, merge the
unit ledger into the pipeline ledger. Produces the unit's final snapshot
(what `write_stats(2, current_stats, ...)` flushes). -/
def run_unit (limit : Nat) (pipe : Stats) (counter : Nat) (u : UnitEnv) :
    Except PyExc (Sum (List Ev × Nat) (Stats × Nat × StatsD)) :=
  let cur := Stats.init []
  match run_unit_batches limit cur pipe counter u.db_id u.batches with
  | .error exc => .error exc
  | .ok (.inl e) => .ok (.inl e)
  | .ok (.inr (cur, pipe, counter)) =>
    match statsResponseValue cur.full_stats with
    | .error exc => .error exc
    | .ok resp =>
      match cur.add_stats [("response", resp), ("real_time", u.real_time)] with
      | .error exc => .error exc
      | .ok cur =>
        match pipe.add_stats cur.full_stats with
        | .error exc => .error exc
        | .ok pipe => .ok (.inr (pipe, counter, cur.full_stats))

/-- One pipeline described by the environment. -/
structure PipelineEnv where
  units : List UnitEnv

/-- The source-unit fold of one pipeline, accumulating unit snapshots. -/
def run_pipeline_units (limit : Nat) (pipe : Stats) (counter : Nat) (acc : List StatsD) :
    List UnitEnv → Except PyExc (Sum (List Ev × Nat) (Stats × Nat × List StatsD))
  | [] => .ok (.inr (pipe, counter, acc))
  | u :: rest =>
    match run_unit limit pipe counter u with
    | .error exc => .error exc
    | .ok (.inl e) => .ok (.inl e)
    | .ok (.inr (pipe, counter, snap)) =>
      run_pipeline_units limit pipe counter (acc ++ [snap]) rest

/-- Result of a whole run: aborted via `max_fail_exit`, or finished with the
run-level ledger dict and the final snapshots of every source-unit ledger. -/
inductive RunRes where
  | exited (events : List Ev) (code : Nat)
  | finished (overall : StatsD) (unitFinals : List StatsD)

/-- The pipeline fold of `core.run` (lines 390–619): reset
`pipeline_stats`, process the units, merge the pipeline ledger into the
run-level ledger. -/
def run_pipelines (limit : Nat) (overall : Stats) (counter : Nat) (acc : List StatsD) :
    List PipelineEnv → Except PyExc RunRes
  | [] => .ok (.finished overall.full_stats acc)
  | p :: rest =>
    let pipe := Stats.init []
    match run_pipeline_units limit pipe counter [] p.units with
    | .error exc => .error exc
    | .ok (.inl (ev, c)) => .ok (.exited ev c)
    | .ok (.inr (pipe, counter, snaps)) =>
      match overall.add_stats pipe.full_stats with
      | .error exc => .error exc
      | .ok overall => run_pipelines limit overall counter (acc ++ snaps) rest

/-- `core.run`, restricted to ledger aggregation and the abort path: the
run-level ledger starts as `Stats({"model_origin": ..., "model_name": ...})`
(core lines 369–372) and `max_fail_counter = 0`. -/
def run_model (limit : Nat) (model_origin model_name : String)
    (pipelines : List PipelineEnv) : Except PyExc RunRes :=
  let overall := Stats.init [("model_origin", .str model_origin), ("model_name", .str model_name)]
  run_pipelines limit overall 0 [] pipelines

/-! ## The structural-validator call site (core lines 529–533)

```
if GENERATION_SETTINGS['validation']["fields_checking"] and
      (check_fields(json, fields_to_check) == False):
    errors['fields_mismatch'] = True
if (not errors['fields_mismatch'] == True) and
      GENERATION_SETTINGS['validation']["db_id_matching"] and
      (check_db_id(current_db, json, target_db_id) > 0):
    errors['db_id_matching'] = True
```
`and` short-circuits, so `check_db_id` runs only when `fields_mismatch` is
not set and the `db_id_matching` validation setting is enabled. -/

/-- The validator step run on a parsed record sequence. -/
def validation_step (fields_checking : Bool) (fields_to_check : List String)
    (db_id_matching_setting : Bool) (current_db : String) (target_db_id : String)
    (records : List PyVal) (errors : ErrDict) : Except PyExc ErrDict :=
  match (if fields_checking then check_fields records fields_to_check else .ok true) with
  | .error exc => .error exc
  | .ok fieldsOk =>
    let errors := if fields_checking ∧ fieldsOk = false then alSet errors "fields_mismatch" true else errors
    match alGet errors "fields_mismatch" with
    | none => .error (.keyError "fields_mismatch")
    | some fm =>
      if ¬ (fm = true) ∧ db_id_matching_setting then
        match check_db_id (some current_db) records (some target_db_id) with
        | .error exc => .error exc
        | .ok n =>
          if n > 0 then .ok (alSet errors "db_id_matching" true) else .ok errors
      else .ok errors

/-! ## Specification-side definitions

Independent formulations of quantities the claims speak about, written from
the spec's words, to be compared against the embedded code. -/

/-- Integer stored at a key, `0` when absent or non-int. -/
def getIntV : StatVal → Int
  | .int n => n
  | _ => 0

/-- Whether an optional ledger value is a Python int. -/
def isIntOpt : Option StatVal → Bool
  | some (.int _) => true
  | _ => false

/-- The int stored behind an optional ledger value (`0` otherwise). -/
def getIntOpt : Option StatVal → Int
  | some (.int n) => n
  | _ => 0

/-- Integer value of a ledger counter. -/
def getIntD (fs : StatsD) (k : String) : Int := getIntOpt (alGet fs k)

/-- `success_response + error_response + corrected_response` of a ledger
snapshot — the quantity of the spec's ledger sum invariant. -/
def secSum (fs : StatsD) : Int :=
  getIntD fs "success_response" + getIntD fs "error_response" + getIntD fs "corrected_response"

/-- The three terminal-outcome counters hold Python ints. -/
def secInts (fs : StatsD) : Prop :=
  isIntOpt (alGet fs "success_response") = true ∧
  isIntOpt (alGet fs "error_response") = true ∧
  isIntOpt (alGet fs "corrected_response") = true

/-- Total int contribution of a stats-input list at one key. -/
def numContrib : List (String × StatVal) → String → Int
  | [], _ => 0
  | (k1, v) :: t, k => (if k1 = k then getIntV v else 0) + numContrib t k

/-- Whether an attempt outcome is the accepting one (breaks the loop). -/
def isAcceptedO : AttemptOutcome → Bool
  | .accepted _ _ => true
  | _ => false

/-- The `success/error/corrected` contribution of one executed, non-breaking
or breaking attempt: an unexpected exception increments none of the three, a
failed response increments `error_response`, an accepted response increments
`success_response` or `corrected_response`. -/
def contSEC : AttemptOutcome → Int
  | .unexpected _ => 0
  | .failed _ => 1
  | .accepted _ _ => 1

/-- Spec-side tally for one prompt batch that reached a terminal state:
attempts run in order until one is accepted (counting `1` for it) or the
budget list is exhausted, failed attempts counting `1` each and unexpected
attempts `0`. -/
def batchSEC : List AttemptOutcome → Int
  | [] => 0
  | .accepted _ _ :: _ => 1
  | o :: rest => contSEC o + batchSEC rest

/-- Spec-side tally over a source unit. -/
def unitSpecSEC (u : UnitEnv) : Int := (u.batches.map batchSEC).sum

/-- Spec-side tally over a pipeline. -/
def pipeSpecSEC (p : PipelineEnv) : Int := (p.units.map unitSpecSEC).sum

/-- Spec-side tally over a whole run: the sum of the
`success + error + corrected` counters over all prompt batches that reach a
terminal state. -/
def runSpecSEC (ps : List PipelineEnv) : Int := (ps.map pipeSpecSEC).sum

/-- Spec-side: the record's source identifier differs from the expected one
(a record without the key or of the wrong shape counts as differing). -/
def recSrcNe (db_id : Option String) (r : PyVal) : Bool :=
  match r with
  | .dict kvs =>
    match alGet kvs "source_db_id" with
    | some v => pyValNe v db_id
    | none => true
  | _ => true

/-- Spec-side: the record's target identifier differs from the expected one. -/
def recTgtNe (target_db_id : Option String) (r : PyVal) : Bool :=
  match r with
  | .dict kvs =>
    match alGet kvs "target_db_id" with
    | some v => pyValNe v target_db_id
    | none => true
  | _ => true

/-- Spec-side, the claim's words: the number of mismatching **records** —
records whose source identifier differs, or, when a target identifier is
configured, whose target identifier differs. -/
def mismatchRecordCount (db_id target_db_id : Option String) (records : List PyVal) : Int :=
  (records.map (fun r =>
    if recSrcNe db_id r ∨ (truthyStr target_db_id ∧ recTgtNe target_db_id r) then (1 : Int) else 0)).sum

/-- Spec-side, the amended claim: the number of mismatching identifier
**fields** — one per record whose source identifier differs plus one per
record whose target identifier differs (a record wrong in both counts
twice). -/
def mismatchFieldCount (db_id target_db_id : Option String) (records : List PyVal) : Int :=
  (records.map (fun r =>
    (if recSrcNe db_id r then (1 : Int) else 0) +
    (if truthyStr target_db_id ∧ recTgtNe target_db_id r then (1 : Int) else 0))).sum

/-- A record carrying the identifier keys `check_db_id` reads: a dict with
`source_db_id` and, when a target identifier is configured, `target_db_id`. -/
def recordHasKeys (target_db_id : Option String) (r : PyVal) : Prop :=
  ∃ kvs, r = .dict kvs ∧ (alGet kvs "source_db_id").isSome = true ∧
    (truthyStr target_db_id = true → (alGet kvs "target_db_id").isSome = true)

/-- A record missing a key `check_db_id` reads: a dict lacking
`source_db_id`, or lacking `target_db_id` while a target identifier is
configured (truthy). -/
def recordLacksKey (target_db_id : Option String) (r : PyVal) : Prop :=
  ∃ kvs, r = .dict kvs ∧ (alGet kvs "source_db_id" = none ∨
    (truthyStr target_db_id = true ∧ alGet kvs "target_db_id" = none))

/-- How many of the three mutually-exclusive classifier flags are set. -/
def classifierFlagCount (e : ErrDict) : Nat :=
  (if alGet e "empty_output" = some true then 1 else 0) +
  (if alGet e "max_token" = some true then 1 else 0) +
  (if alGet e "recitation" = some true then 1 else 0)

/-- Every value of a ledger dict is numeric. -/
def allNumD (fs : StatsD) : Prop := ∀ kv ∈ fs, isNumV kv.2 = true

/-- A small concrete run environment: one pipeline, one source unit, two
batches (one accepted first try, one accepted on the second attempt after a
failed response). -/
def sampleRunEnv : List PipelineEnv :=
  [⟨[⟨"db1",
      [[AttemptOutcome.accepted false ⟨.int 3, .int 10, .int 20⟩],
       [AttemptOutcome.failed ⟨.int 1, .none, .none⟩,
        AttemptOutcome.accepted true ⟨.int 2, .int 5, .int 6⟩]],
      .int 7⟩]⟩]

/-- The run-level ledger dict that `sampleRunEnv` produces. -/
def sampleOverall : StatsD :=
  [("time_taken", .int 6), ("real_time", .int 7), ("input_token", .int 15),
   ("output_token", .int 26), ("request", .int 3), ("response", .int 3),
   ("success_response", .int 1), ("error_response", .int 1),
   ("corrected_response", .int 1), ("unexpected_error", .int 0),
   ("model_origin", .str "google"), ("model_name", .str "gem")]

/-- The single source-unit snapshot that `sampleRunEnv` produces. -/
def sampleUnitFinal : StatsD :=
  [("time_taken", .int 6), ("real_time", .int 7), ("input_token", .int 15),
   ("output_token", .int 26), ("request", .int 3), ("response", .int 3),
   ("success_response", .int 1), ("error_response", .int 1),
   ("corrected_response", .int 1), ("unexpected_error", .int 0)]

/-! ## Lemmas: association lists -/

theorem alGet_alSet {α : Type} (fs : List (String × α)) (k k' : String) (v : α) :
    alGet (alSet fs k v) k' = if k' = k then some v else alGet fs k' := by
  induction fs with
  | nil =>
    rcases eq_or_ne k' k with h | h
    · subst h; simp [alSet, alGet]
    · simp [alSet, alGet, h, Ne.symm h]
  | cons hd t ih =>
    obtain ⟨k1, v1⟩ := hd
    rcases eq_or_ne k1 k with h1 | h1
    · subst h1
      rcases eq_or_ne k1 k' with h2 | h2
      · subst h2; simp [alSet, alGet]
      · simp [alSet, alGet, h2, Ne.symm h2]
    · rcases eq_or_ne k1 k' with h2 | h2
      · subst h2
        simp [alSet, alGet, h1, Ne.symm h1]
      · simp [alSet, alGet, h1, h2, ih]

theorem alSet_keys {α : Type} (fs : List (String × α)) (k : String) (v : α)
    (h : (alGet fs k).isSome) :
    (alSet fs k v).map Prod.fst = fs.map Prod.fst := by
  induction fs with
  | nil => simp [alGet] at h
  | cons hd t ih =>
    obtain ⟨k1, v1⟩ := hd
    rcases eq_or_ne k1 k with h1 | h1
    · simp [alSet, h1]
    · simp only [alGet, h1, if_false] at h
      simp [alSet, h1, ih h]

theorem alGet_of_mem_nodup {α : Type} (fs : List (String × α)) (k : String) (v : α)
    (hnd : (fs.map Prod.fst).Nodup) (hm : (k, v) ∈ fs) : alGet fs k = some v := by
  induction fs with
  | nil => simp at hm
  | cons hd t ih =>
    obtain ⟨k1, v1⟩ := hd
    simp only [List.map_cons, List.nodup_cons] at hnd
    rcases List.mem_cons.mp hm with h | h
    · rw [Prod.mk.injEq] at h
      obtain ⟨hk, hv⟩ := h
      subst hk; subst hv
      simp [alGet]
    · have hk1 : k1 ≠ k := by
        intro he; subst he
        exact hnd.1 (List.mem_map.mpr ⟨(k1, v), h, rfl⟩)
      simp only [alGet, hk1, if_false]
      exact ih hnd.2 h

theorem mem_of_alGet {α : Type} (fs : List (String × α)) (k : String) (v : α)
    (h : alGet fs k = some v) : (k, v) ∈ fs := by
  induction fs with
  | nil => simp [alGet] at h
  | cons hd t ih =>
    obtain ⟨k1, v1⟩ := hd
    by_cases h1 : k1 = k
    · subst h1
      simp [alGet] at h
      simp [h]
    · simp [alGet, h1] at h
      exact List.mem_cons_of_mem _ (ih h)

/-! ## Lemmas: ledger arithmetic -/

theorem isIntOpt_spec (o : Option StatVal) (h : isIntOpt o = true) :
    o = some (.int (getIntOpt o)) := by
  match o with
  | Option.none => simp [isIntOpt] at h
  | some (.int n) => simp [getIntOpt]
  | some (.float q) => simp [isIntOpt] at h
  | some (.str s) => simp [isIntOpt] at h
  | some .none => simp [isIntOpt] at h

theorem getIntOpt_some (v : StatVal) : getIntOpt (some v) = getIntV v := by
  cases v <;> simp [getIntOpt, getIntV]

theorem add_stats_fold_keys (inp : List (String × StatVal)) (fs fs' : StatsD)
    (h : add_stats_fold inp fs = .ok fs') : fs'.map Prod.fst = fs.map Prod.fst := by
  induction inp generalizing fs with
  | nil =>
    simp only [add_stats_fold, Except.ok.injEq] at h
    rw [h]
  | cons hd t ih =>
    obtain ⟨k1, v1⟩ := hd
    simp only [add_stats_fold] at h
    split at h
    · rename_i old _ _
      split at h
      · rename_i nv hadd
        have := ih (alSet fs k1 nv) h
        rw [this, alSet_keys]
        rw [‹alGet fs k1 = some old›]; rfl
      · exact absurd h (by simp)
    · exact ih fs h

theorem add_stats_fold_preserves (inp : List (String × StatVal)) (fs fs' : StatsD)
    (h : add_stats_fold inp fs = .ok fs') (k : String) (hk : k ∉ inp.map Prod.fst) :
    alGet fs' k = alGet fs k := by
  induction inp generalizing fs with
  | nil =>
    simp only [add_stats_fold, Except.ok.injEq] at h
    rw [h]
  | cons hd t ih =>
    obtain ⟨k1, v1⟩ := hd
    simp only [List.map_cons, List.mem_cons] at hk
    push_neg at hk
    obtain ⟨hk1, hkt⟩ := hk
    simp only [add_stats_fold] at h
    split at h
    · split at h
      · rename_i old _ heq _ nv hadd
        rw [ih (alSet fs k1 nv) h hkt, alGet_alSet]
        simp [hk1]
      · exact absurd h (by simp)
    · exact ih fs h hkt

theorem add_stats_fold_getInt (inp : List (String × StatVal)) (fs fs' : StatsD) (k : String)
    (h : add_stats_fold inp fs = .ok fs')
    (hfs : isIntOpt (alGet fs k) = true)
    (hv : ∀ v, (k, v) ∈ inp → ∃ n, v = StatVal.int n) :
    alGet fs' k = some (.int (getIntD fs k + numContrib inp k)) := by
  induction inp generalizing fs with
  | nil =>
    simp only [add_stats_fold, Except.ok.injEq] at h
    rw [← h, isIntOpt_spec _ hfs]
    simp [getIntD, numContrib]
  | cons hd t ih =>
    obtain ⟨k1, v1⟩ := hd
    by_cases hk1 : k1 = k
    · subst hk1
      obtain ⟨n, hn⟩ := hv v1 (by simp)
      subst hn
      obtain ⟨m, hm⟩ : ∃ m, alGet fs k1 = some (.int m) := ⟨_, isIntOpt_spec _ hfs⟩
      simp only [add_stats_fold, hm, isNumV, pyAdd] at h
      have hfs2 : isIntOpt (alGet (alSet fs k1 (.int (m + n))) k1) = true := by
        rw [alGet_alSet]; simp [isIntOpt]
      have hv2 : ∀ v, (k1, v) ∈ t → ∃ j, v = StatVal.int j := by
        intro v hvm; exact hv v (List.mem_cons_of_mem _ hvm)
      have ih' := ih (alSet fs k1 (.int (m + n))) h hfs2 hv2
      rw [ih']
      have hg : getIntD (alSet fs k1 (.int (m + n))) k1 = m + n := by
        simp [getIntD, alGet_alSet, getIntOpt]
      rw [hg]
      have hg2 : getIntD fs k1 = m := by simp [getIntD, hm, getIntOpt]
      rw [hg2]
      simp only [numContrib, if_pos rfl, getIntV, if_true, eq_self_iff_true]
      have harith : m + n + numContrib t k1 = m + (n + numContrib t k1) := by omega
      rw [harith]
    · simp only [add_stats_fold] at h
      split at h
      · split at h
        · rename_i old _ heq _ nv hadd
          have hfs2 : isIntOpt (alGet (alSet fs k1 nv) k) = true := by
            rw [alGet_alSet, if_neg (fun hh : k = k1 => hk1 hh.symm)]
            exact hfs
          have hv2 : ∀ v, (k, v) ∈ t → ∃ j, v = StatVal.int j := by
            intro v hvm; exact hv v (List.mem_cons_of_mem _ hvm)
          have ih' := ih (alSet fs k1 nv) h hfs2 hv2
          rw [ih']
          have hg : getIntD (alSet fs k1 nv) k = getIntD fs k := by
            simp only [getIntD, alGet_alSet]
            rw [if_neg (fun hh : k = k1 => hk1 hh.symm)]
          rw [hg]
          simp [numContrib, hk1]
        · exact absurd h (by simp)
      · have ih' := ih fs h hfs (fun v hvm => hv v (List.mem_cons_of_mem _ hvm))
        rw [ih']
        simp [numContrib, hk1]

theorem numContrib_zero (fs : List (String × StatVal)) (k : String)
    (hk : k ∉ fs.map Prod.fst) : numContrib fs k = 0 := by
  induction fs with
  | nil => rfl
  | cons hd t ih =>
    obtain ⟨k1, v1⟩ := hd
    simp only [List.map_cons, List.mem_cons] at hk
    push_neg at hk
    simp only [numContrib]
    rw [if_neg (fun hh : k1 = k => hk.1 hh.symm), ih hk.2]
    simp

theorem numContrib_nodup (fs : StatsD) (k : String)
    (hnd : (fs.map Prod.fst).Nodup) : numContrib fs k = getIntD fs k := by
  induction fs with
  | nil => simp [numContrib, getIntD, alGet, getIntOpt]
  | cons hd t ih =>
    obtain ⟨k1, v1⟩ := hd
    simp only [List.map_cons, List.nodup_cons] at hnd
    by_cases hk1 : k1 = k
    · subst hk1
      have : k1 ∉ t.map Prod.fst := hnd.1
      simp [numContrib, getIntD, alGet, numContrib_zero t k1 this, getIntOpt_some]
    · simp [numContrib, hk1, getIntD, alGet, ih hnd.2]

theorem sec_preserved (inp : List (String × StatVal)) (fs fs' : StatsD)
    (h : add_stats_fold inp fs = .ok fs')
    (h1 : "success_response" ∉ inp.map Prod.fst)
    (h2 : "error_response" ∉ inp.map Prod.fst)
    (h3 : "corrected_response" ∉ inp.map Prod.fst) :
    (secInts fs → secInts fs') ∧ secSum fs' = secSum fs := by
  have e1 := add_stats_fold_preserves inp fs fs' h _ h1
  have e2 := add_stats_fold_preserves inp fs fs' h _ h2
  have e3 := add_stats_fold_preserves inp fs fs' h _ h3
  constructor
  · intro ⟨a, b, c⟩
    exact ⟨by rw [e1]; exact a, by rw [e2]; exact b, by rw [e3]; exact c⟩
  · simp [secSum, getIntD, e1, e2, e3]

theorem sec_bump (k : String)
    (hk : k = "success_response" ∨ k = "error_response" ∨ k = "corrected_response")
    (fs fs' : StatsD) (h : add_stats_fold [(k, .int 1)] fs = .ok fs') (hs : secInts fs) :
    secInts fs' ∧ secSum fs' = secSum fs + 1 := by
  obtain ⟨ha, hb, hc⟩ := hs
  have hv : ∀ v, (k, v) ∈ [(k, StatVal.int 1)] → ∃ n, v = StatVal.int n := by
    intro v hvm
    simp only [List.mem_singleton, Prod.mk.injEq] at hvm
    exact ⟨1, hvm.2⟩
  rcases hk with rfl | rfl | rfl
  · have hget := add_stats_fold_getInt _ fs fs' _ h ha hv
    have e2 := add_stats_fold_preserves _ fs fs' h "error_response" (by decide)
    have e3 := add_stats_fold_preserves _ fs fs' h "corrected_response" (by decide)
    rw [show numContrib [("success_response", StatVal.int 1)] "success_response" = 1 by decide] at hget
    refine ⟨⟨by rw [hget]; rfl, by rw [e2]; exact hb, by rw [e3]; exact hc⟩, ?_⟩
    have s1 : getIntD fs' "success_response" = getIntD fs "success_response" + 1 := by
      simp [getIntD, hget, getIntOpt]
    have s2 : getIntD fs' "error_response" = getIntD fs "error_response" := by
      simp [getIntD, e2]
    have s3 : getIntD fs' "corrected_response" = getIntD fs "corrected_response" := by
      simp [getIntD, e3]
    simp only [secSum, s1, s2, s3]
    omega
  · have hget := add_stats_fold_getInt _ fs fs' _ h hb hv
    have e2 := add_stats_fold_preserves _ fs fs' h "success_response" (by decide)
    have e3 := add_stats_fold_preserves _ fs fs' h "corrected_response" (by decide)
    rw [show numContrib [("error_response", StatVal.int 1)] "error_response" = 1 by decide] at hget
    refine ⟨⟨by rw [e2]; exact ha, by rw [hget]; rfl, by rw [e3]; exact hc⟩, ?_⟩
    have s1 : getIntD fs' "error_response" = getIntD fs "error_response" + 1 := by
      simp [getIntD, hget, getIntOpt]
    have s2 : getIntD fs' "success_response" = getIntD fs "success_response" := by
      simp [getIntD, e2]
    have s3 : getIntD fs' "corrected_response" = getIntD fs "corrected_response" := by
      simp [getIntD, e3]
    simp only [secSum, s1, s2, s3]
    omega
  · have hget := add_stats_fold_getInt _ fs fs' _ h hc hv
    have e2 := add_stats_fold_preserves _ fs fs' h "success_response" (by decide)
    have e3 := add_stats_fold_preserves _ fs fs' h "error_response" (by decide)
    rw [show numContrib [("corrected_response", StatVal.int 1)] "corrected_response" = 1 by decide] at hget
    refine ⟨⟨by rw [e2]; exact ha, by rw [e3]; exact hb, by rw [hget]; rfl⟩, ?_⟩
    have s1 : getIntD fs' "corrected_response" = getIntD fs "corrected_response" + 1 := by
      simp [getIntD, hget, getIntOpt]
    have s2 : getIntD fs' "success_response" = getIntD fs "success_response" := by
      simp [getIntD, e2]
    have s3 : getIntD fs' "error_response" = getIntD fs "error_response" := by
      simp [getIntD, e3]
    simp only [secSum, s1, s2, s3]
    omega

theorem sec_merge (snap : StatsD) (fs fs' : StatsD)
    (h : add_stats_fold snap fs = .ok fs')
    (hnd : (snap.map Prod.fst).Nodup) (hsnap : secInts snap) (hs : secInts fs) :
    secInts fs' ∧ secSum fs' = secSum fs + secSum snap := by
  obtain ⟨sa, sb, sc⟩ := hsnap
  obtain ⟨ha, hb, hc⟩ := hs
  have hv : ∀ (k : String), isIntOpt (alGet snap k) = true →
      ∀ v, (k, v) ∈ snap → ∃ n, v = StatVal.int n := by
    intro k hik v hvm
    have := alGet_of_mem_nodup snap k v hnd hvm
    rw [this] at hik
    cases v <;> simp [isIntOpt] at hik ⊢
  have g1 := add_stats_fold_getInt snap fs fs' _ h ha (hv _ sa)
  have g2 := add_stats_fold_getInt snap fs fs' _ h hb (hv _ sb)
  have g3 := add_stats_fold_getInt snap fs fs' _ h hc (hv _ sc)
  have n1 := numContrib_nodup snap "success_response" hnd
  have n2 := numContrib_nodup snap "error_response" hnd
  have n3 := numContrib_nodup snap "corrected_response" hnd
  rw [n1] at g1
  rw [n2] at g2
  rw [n3] at g3
  refine ⟨⟨by rw [g1]; rfl, by rw [g2]; rfl, by rw [g3]; rfl⟩, ?_⟩
  have s1 : getIntD fs' "success_response"
      = getIntD fs "success_response" + getIntD snap "success_response" := by
    simp [getIntD, g1, getIntOpt]
  have s2 : getIntD fs' "error_response"
      = getIntD fs "error_response" + getIntD snap "error_response" := by
    simp [getIntD, g2, getIntOpt]
  have s3 : getIntD fs' "corrected_response"
      = getIntD fs "corrected_response" + getIntD snap "corrected_response" := by
    simp [getIntD, g3, getIntOpt]
  simp only [secSum, s1, s2, s3]
  omega

theorem pyAdd_num (a b : StatVal) (ha : isNumV a = true) (hb : isNumV b = true) :
    ∃ cc, pyAdd a b = .ok cc ∧ isNumV cc = true := by
  cases a <;> cases b <;>
    first
    | exact ⟨_, rfl, rfl⟩
    | simp [isNumV] at ha hb

theorem allNum_alSet (fs : StatsD) (k : String) (v : StatVal)
    (h : allNumD fs) (hv : isNumV v = true) : allNumD (alSet fs k v) := by
  induction fs with
  | nil =>
    intro kv hkv
    simp only [alSet, List.mem_singleton] at hkv
    rw [hkv]
    exact hv
  | cons hd t ih =>
    obtain ⟨k1, v1⟩ := hd
    have ht : allNumD t := fun kv hkv => h kv (List.mem_cons_of_mem _ hkv)
    intro kv hkv
    by_cases h1 : k1 = k
    · simp only [alSet, if_pos h1] at hkv
      rcases List.mem_cons.mp hkv with hh | hh
      · rw [hh]; exact hv
      · exact h kv (List.mem_cons_of_mem _ hh)
    · simp only [alSet, if_neg h1] at hkv
      rcases List.mem_cons.mp hkv with hh | hh
      · rw [hh]; exact h (k1, v1) (List.mem_cons_self _ _)
      · exact ih ht kv hh

/-! ## Lemmas: the ledger hierarchy of `core.run` -/

theorem default_keys_nodup : (default_full_stats.map Prod.fst).Nodup := by decide

theorem secInts_default : secInts default_full_stats := by
  refine ⟨?_, ?_, ?_⟩ <;> decide

theorem secSum_default : secSum default_full_stats = 0 := by decide

theorem stats_init_nil_full : (Stats.init []).full_stats = default_full_stats := rfl

theorem Stats.add_stats_ok (st st2 : Stats) (inp : List (String × StatVal))
    (h : st.add_stats inp = .ok st2) :
    add_stats_fold inp st.full_stats = .ok st2.full_stats ∧
    st2.unexpected_errors = st.unexpected_errors ∧
    st2.skipped_db_prompts = st.skipped_db_prompts := by
  unfold Stats.add_stats at h
  cases hh : add_stats_fold inp st.full_stats with
  | error exc => simp only [hh] at h; exact absurd h (by simp)
  | ok fs =>
    simp only [hh] at h
    simp only [Except.ok.injEq] at h
    rw [← h]
    exact ⟨rfl, rfl, rfl⟩

theorem Stats.add_unexpected_ok (st st2 : Stats) (msg : String)
    (h : st.add_unexpected_error msg = .ok st2) :
    ∃ nv, st2.full_stats = alSet st.full_stats "unexpected_error" nv := by
  unfold Stats.add_unexpected_error at h
  cases hg : alGet st.full_stats "unexpected_error" with
  | none => simp only [hg] at h; exact absurd h (by simp)
  | some old =>
    simp only [hg] at h
    cases ha : pyAdd old (.int 1) with
    | error exc => simp only [ha] at h; exact absurd h (by simp)
    | ok nv =>
      simp only [ha] at h
      simp only [Except.ok.injEq] at h
      exact ⟨nv, by rw [← h]⟩

theorem sec_alSet (fs : StatsD) (k : String) (v : StatVal)
    (h1 : k ≠ "success_response") (h2 : k ≠ "error_response") (h3 : k ≠ "corrected_response") :
    (secInts fs → secInts (alSet fs k v)) ∧ secSum (alSet fs k v) = secSum fs := by
  have e1 : alGet (alSet fs k v) "success_response" = alGet fs "success_response" := by
    rw [alGet_alSet, if_neg (Ne.symm h1)]
  have e2 : alGet (alSet fs k v) "error_response" = alGet fs "error_response" := by
    rw [alGet_alSet, if_neg (Ne.symm h2)]
  have e3 : alGet (alSet fs k v) "corrected_response" = alGet fs "corrected_response" := by
    rw [alGet_alSet, if_neg (Ne.symm h3)]
  constructor
  · intro ⟨a, b, c⟩
    exact ⟨by rw [e1]; exact a, by rw [e2]; exact b, by rw [e3]; exact c⟩
  · simp [secSum, getIntD, e1, e2, e3]

theorem batchSEC_acc (o : AttemptOutcome) (rest : List AttemptOutcome)
    (h : isAcceptedO o = true) : batchSEC (o :: rest) = 1 := by
  cases o with
  | unexpected msg => simp [isAcceptedO] at h
  | failed m => simp [isAcceptedO] at h
  | accepted f m => rfl

theorem batchSEC_nacc (o : AttemptOutcome) (rest : List AttemptOutcome)
    (h : isAcceptedO o = false) : batchSEC (o :: rest) = contSEC o + batchSEC rest := by
  cases o <;> simp [isAcceptedO] at h ⊢ <;> simp [batchSEC, contSEC]

theorem attempt_step_cont (limit : Nat) (st : Stats) (c : Nat) (o : AttemptOutcome)
    (st' : Stats) (c' : Nat)
    (h : attempt_step limit st c o = .ok (.failedCont st' c'))
    (hs : secInts st.full_stats) :
    secInts st'.full_stats ∧ st'.full_stats.map Prod.fst = st.full_stats.map Prod.fst ∧
    secSum st'.full_stats = secSum st.full_stats + contSEC o ∧ isAcceptedO o = false := by
  unfold attempt_step at h
  cases h1 : st.add_stats [("request", .int 1)] with
  | error exc => simp only [h1] at h; exact absurd h (by simp)
  | ok st1 =>
    simp only [h1] at h
    obtain ⟨hf1, _, _⟩ := Stats.add_stats_ok st st1 _ h1
    have hreq := sec_preserved _ _ _ hf1 (by decide) (by decide) (by decide)
    have hkey1 := add_stats_fold_keys _ _ _ hf1
    cases o with
    | unexpected msg =>
      cases h2 : st1.add_unexpected_error msg with
      | error exc => simp only [h2] at h; exact absurd h (by simp)
      | ok st2 =>
        simp only [h2] at h
        obtain ⟨nv, hst2⟩ := Stats.add_unexpected_ok st1 st2 msg h2
        by_cases hlim : limit ≤ c + 1
        · rw [if_pos hlim] at h
          exact absurd h (by simp)
        · rw [if_neg hlim] at h
          simp only [Except.ok.injEq, StepRes.failedCont.injEq] at h
          obtain ⟨hst', _⟩ := h
          subst hst'
          have hsec := sec_alSet st1.full_stats "unexpected_error" nv
            (by decide) (by decide) (by decide)
          have hgetu : (alGet st1.full_stats "unexpected_error").isSome = true := by
            unfold Stats.add_unexpected_error at h2
            cases hg : alGet st1.full_stats "unexpected_error" with
            | none => simp only [hg] at h2; exact absurd h2 (by simp)
            | some _ => rfl
          refine ⟨?_, ?_, ?_, rfl⟩
          · rw [hst2]; exact hsec.1 (hreq.1 hs)
          · rw [hst2, alSet_keys _ _ _ hgetu, hkey1]
          · rw [hst2, hsec.2, hreq.2]
            simp [contSEC]
    | failed m =>
      cases h2 : st1.add_stats (metaStats m) with
      | error exc => simp only [h2] at h; exact absurd h (by simp)
      | ok st2 =>
        simp only [h2] at h
        obtain ⟨hf2, _, _⟩ := Stats.add_stats_ok st1 st2 _ h2
        have hmk : (metaStats m).map Prod.fst = ["time_taken", "input_token", "output_token"] := rfl
        have hmeta := sec_preserved _ _ _ hf2
          (by rw [hmk]; decide) (by rw [hmk]; decide) (by rw [hmk]; decide)
        have hkey2 := add_stats_fold_keys _ _ _ hf2
        cases h3 : st2.add_stats [("error_response", .int 1)] with
        | error exc => simp only [h3] at h; exact absurd h (by simp)
        | ok st3 =>
          simp only [h3] at h
          simp only [Except.ok.injEq, StepRes.failedCont.injEq] at h
          obtain ⟨hst', _⟩ := h
          subst hst'
          obtain ⟨hf3, _, _⟩ := Stats.add_stats_ok st2 st3 _ h3
          have hbump := sec_bump "error_response" (by right; left; rfl) _ _ hf3
            (hmeta.1 (hreq.1 hs))
          have hkey3 := add_stats_fold_keys _ _ _ hf3
          refine ⟨hbump.1, ?_, ?_, rfl⟩
          · rw [hkey3, hkey2, hkey1]
          · rw [hbump.2, hmeta.2, hreq.2]
            simp [contSEC]
    | accepted fixed m =>
      cases h2 : st1.add_stats (metaStats m) with
      | error exc => simp only [h2] at h; exact absurd h (by simp)
      | ok st2 =>
        simp only [h2] at h
        cases h3 : st2.add_stats [(if fixed then "corrected_response" else "success_response", .int 1)] with
        | error exc => simp only [h3] at h; exact absurd h (by simp)
        | ok st3 => simp only [h3] at h; exact absurd h (by simp)

theorem attempt_step_acc (limit : Nat) (st : Stats) (c : Nat) (o : AttemptOutcome)
    (st' : Stats) (c' : Nat)
    (h : attempt_step limit st c o = .ok (.accepted st' c'))
    (hs : secInts st.full_stats) :
    secInts st'.full_stats ∧ st'.full_stats.map Prod.fst = st.full_stats.map Prod.fst ∧
    secSum st'.full_stats = secSum st.full_stats + 1 ∧ isAcceptedO o = true := by
  unfold attempt_step at h
  cases h1 : st.add_stats [("request", .int 1)] with
  | error exc => simp only [h1] at h; exact absurd h (by simp)
  | ok st1 =>
    simp only [h1] at h
    obtain ⟨hf1, _, _⟩ := Stats.add_stats_ok st st1 _ h1
    have hreq := sec_preserved _ _ _ hf1 (by decide) (by decide) (by decide)
    have hkey1 := add_stats_fold_keys _ _ _ hf1
    cases o with
    | unexpected msg =>
      cases h2 : st1.add_unexpected_error msg with
      | error exc => simp only [h2] at h; exact absurd h (by simp)
      | ok st2 =>
        simp only [h2] at h
        by_cases hlim : limit ≤ c + 1
        · rw [if_pos hlim] at h; exact absurd h (by simp)
        · rw [if_neg hlim] at h; exact absurd h (by simp)
    | failed m =>
      cases h2 : st1.add_stats (metaStats m) with
      | error exc => simp only [h2] at h; exact absurd h (by simp)
      | ok st2 =>
        simp only [h2] at h
        cases h3 : st2.add_stats [("error_response", .int 1)] with
        | error exc => simp only [h3] at h; exact absurd h (by simp)
        | ok st3 => simp only [h3] at h; exact absurd h (by simp)
    | accepted fixed m =>
      cases h2 : st1.add_stats (metaStats m) with
      | error exc => simp only [h2] at h; exact absurd h (by simp)
      | ok st2 =>
        simp only [h2] at h
        obtain ⟨hf2, _, _⟩ := Stats.add_stats_ok st1 st2 _ h2
        have hmk : (metaStats m).map Prod.fst = ["time_taken", "input_token", "output_token"] := rfl
        have hmeta := sec_preserved _ _ _ hf2
          (by rw [hmk]; decide) (by rw [hmk]; decide) (by rw [hmk]; decide)
        have hkey2 := add_stats_fold_keys _ _ _ hf2
        cases h3 : st2.add_stats [(if fixed then "corrected_response" else "success_response", .int 1)] with
        | error exc => simp only [h3] at h; exact absurd h (by simp)
        | ok st3 =>
          simp only [h3] at h
          simp only [Except.ok.injEq, StepRes.accepted.injEq] at h
          obtain ⟨hst', _⟩ := h
          subst hst'
          obtain ⟨hf3, _, _⟩ := Stats.add_stats_ok st2 st3 _ h3
          have hbump := sec_bump (if fixed then "corrected_response" else "success_response")
            (by cases fixed <;> simp) _ _ hf3 (hmeta.1 (hreq.1 hs))
          have hkey3 := add_stats_fold_keys _ _ _ hf3
          refine ⟨hbump.1, by rw [hkey3, hkey2, hkey1], ?_, rfl⟩
          rw [hbump.2, hmeta.2, hreq.2]

theorem run_batch_sec (limit : Nat) (attempts : List AttemptOutcome) (st : Stats) (c : Nat)
    (st' : Stats) (c' : Nat) (acc : Bool)
    (h : run_batch limit st c attempts = .ok (.done st' c' acc))
    (hs : secInts st.full_stats) :
    secInts st'.full_stats ∧ st'.full_stats.map Prod.fst = st.full_stats.map Prod.fst ∧
    secSum st'.full_stats = secSum st.full_stats + batchSEC attempts := by
  induction attempts generalizing st c with
  | nil => simp [run_batch] at h
  | cons o rest ih =>
    simp only [run_batch] at h
    cases hstep : attempt_step limit st c o with
    | error exc => simp only [hstep] at h; exact absurd h (by simp)
    | ok sr =>
      simp only [hstep] at h
      cases sr with
      | exited ev cc => simp at h
      | accepted st2 c2 =>
        simp only [Except.ok.injEq, BatchRes.done.injEq] at h
        obtain ⟨hst', _, _⟩ := h
        subst hst'
        obtain ⟨hi, hk, hsum, hacc⟩ := attempt_step_acc limit st c o st2 c2 hstep hs
        exact ⟨hi, hk, by rw [hsum, batchSEC_acc o rest hacc]⟩
      | failedCont st2 c2 =>
        obtain ⟨hi, hk, hsum, hacc⟩ := attempt_step_cont limit st c o st2 c2 hstep hs
        cases rest with
        | nil =>
          simp only [Except.ok.injEq, BatchRes.done.injEq] at h
          obtain ⟨hst', _, _⟩ := h
          subst hst'
          refine ⟨hi, hk, ?_⟩
          rw [hsum, batchSEC_nacc o [] hacc]
          simp [batchSEC]
        | cons r2 rest2 =>
          obtain ⟨hi2, hk2, hsum2⟩ := ih st2 c2 h hi
          refine ⟨hi2, by rw [hk2, hk], ?_⟩
          rw [hsum2, hsum, batchSEC_nacc o (r2 :: rest2) hacc]
          omega

theorem run_unit_batches_sec (limit : Nat) (bs : List (List AttemptOutcome))
    (cur pipe : Stats) (c : Nat) (db : String) (cur' pipe' : Stats) (c' : Nat)
    (h : run_unit_batches limit cur pipe c db bs = .ok (.inr (cur', pipe', c')))
    (hs : secInts cur.full_stats) :
    secInts cur'.full_stats ∧ cur'.full_stats.map Prod.fst = cur.full_stats.map Prod.fst ∧
    secSum cur'.full_stats = secSum cur.full_stats + (bs.map batchSEC).sum ∧
    pipe'.full_stats = pipe.full_stats := by
  induction bs generalizing cur pipe c with
  | nil =>
    simp only [run_unit_batches, Except.ok.injEq, Sum.inr.injEq, Prod.mk.injEq] at h
    obtain ⟨h1, h2, _⟩ := h
    subst h1; subst h2
    exact ⟨hs, rfl, by simp, rfl⟩
  | cons b rest ih =>
    simp only [run_unit_batches] at h
    cases hb : run_batch limit cur c b with
    | error exc => simp only [hb] at h; exact absurd h (by simp)
    | ok br =>
      simp only [hb] at h
      cases br with
      | exited ev cc => simp at h
      | done cur2 c2 accb =>
        obtain ⟨hi, hk, hsum⟩ := run_batch_sec limit b cur c cur2 c2 accb hb hs
        have hfse : (if accb then pipe
            else pipe.add_skipped_db_prompt ⟨"", "", db, [], DEFAULT_ERRORS⟩).full_stats
            = pipe.full_stats := by
          cases accb <;> rfl
        obtain ⟨hi2, hk2, hsum2, hp2⟩ := ih cur2 _ c2 h hi
        refine ⟨hi2, by rw [hk2, hk], ?_, by rw [hp2, hfse]⟩
        rw [hsum2, hsum]
        simp only [List.map_cons, List.sum_cons]
        omega

theorem run_unit_sec (limit : Nat) (u : UnitEnv) (pipe : Stats) (c : Nat)
    (pipe' : Stats) (c' : Nat) (snap : StatsD)
    (h : run_unit limit pipe c u = .ok (.inr (pipe', c', snap)))
    (hp : secInts pipe.full_stats) :
    secInts pipe'.full_stats ∧ pipe'.full_stats.map Prod.fst = pipe.full_stats.map Prod.fst ∧
    secSum pipe'.full_stats = secSum pipe.full_stats + secSum snap ∧
    secSum snap = unitSpecSEC u := by
  unfold run_unit at h
  cases hub : run_unit_batches limit (Stats.init []) pipe c u.db_id u.batches with
  | error exc => simp only [hub] at h; exact absurd h (by simp)
  | ok r =>
    simp only [hub] at h
    cases r with
    | inl e => simp at h
    | inr trip =>
      obtain ⟨cur1, pipe1, c1⟩ := trip
      obtain ⟨hi1, hk1, hsum1, hp1⟩ := run_unit_batches_sec limit u.batches
        (Stats.init []) pipe c u.db_id cur1 pipe1 c1 hub
        (by rw [stats_init_nil_full]; exact secInts_default)
      rw [stats_init_nil_full] at hk1
      rw [stats_init_nil_full, secSum_default] at hsum1
      cases hrv : statsResponseValue cur1.full_stats with
      | error exc => simp only [hrv] at h; exact absurd h (by simp)
      | ok resp =>
        simp only [hrv] at h
        cases h2 : cur1.add_stats [("response", resp), ("real_time", u.real_time)] with
        | error exc => simp only [h2] at h; exact absurd h (by simp)
        | ok cur2 =>
          simp only [h2] at h
          obtain ⟨hf2, _, _⟩ := Stats.add_stats_ok cur1 cur2 _ h2
          have hmk2 : ([("response", resp), ("real_time", u.real_time)].map Prod.fst)
              = ["response", "real_time"] := rfl
          have hresp := sec_preserved _ _ _ hf2
            (by rw [hmk2]; decide) (by rw [hmk2]; decide) (by rw [hmk2]; decide)
          have hkey2 := add_stats_fold_keys _ _ _ hf2
          cases h3 : pipe1.add_stats cur2.full_stats with
          | error exc => simp only [h3] at h; exact absurd h (by simp)
          | ok pipe2 =>
            simp only [h3, Except.ok.injEq, Sum.inr.injEq, Prod.mk.injEq] at h
            obtain ⟨hpe, _, hsnap⟩ := h
            subst hpe
            obtain ⟨hf3, _, _⟩ := Stats.add_stats_ok pipe1 pipe2 _ h3
            have hnd2 : (cur2.full_stats.map Prod.fst).Nodup := by
              rw [hkey2, hk1]; exact default_keys_nodup
            have hmerge := sec_merge cur2.full_stats pipe1.full_stats pipe2.full_stats hf3
              hnd2 (hresp.1 hi1) (by rw [hp1]; exact hp)
            have hkey3 := add_stats_fold_keys _ _ _ hf3
            have hsnapsec : secSum cur2.full_stats = unitSpecSEC u := by
              rw [hresp.2, hsum1]
              simp [unitSpecSEC]
            refine ⟨hmerge.1, ?_, ?_, by rw [← hsnap]; exact hsnapsec⟩
            · rw [hkey3, hp1]
            · rw [hmerge.2, hp1, ← hsnap]

theorem run_pipeline_units_sec (limit : Nat) (us : List UnitEnv) (pipe : Stats) (c : Nat)
    (acc : List StatsD) (pipe' : Stats) (c' : Nat) (snaps : List StatsD)
    (h : run_pipeline_units limit pipe c acc us = .ok (.inr (pipe', c', snaps)))
    (hp : secInts pipe.full_stats) :
    secInts pipe'.full_stats ∧ pipe'.full_stats.map Prod.fst = pipe.full_stats.map Prod.fst ∧
    ∃ newSnaps, snaps = acc ++ newSnaps ∧
      secSum pipe'.full_stats = secSum pipe.full_stats + (newSnaps.map secSum).sum ∧
      (newSnaps.map secSum).sum = (us.map unitSpecSEC).sum := by
  induction us generalizing pipe c acc with
  | nil =>
    simp only [run_pipeline_units, Except.ok.injEq, Sum.inr.injEq, Prod.mk.injEq] at h
    obtain ⟨h1, _, h3⟩ := h
    subst h1
    refine ⟨hp, rfl, [], by rw [← h3]; simp, by simp, by simp⟩
  | cons u rest ih =>
    simp only [run_pipeline_units] at h
    cases hu : run_unit limit pipe c u with
    | error exc => simp only [hu] at h; exact absurd h (by simp)
    | ok r =>
      simp only [hu] at h
      cases r with
      | inl e => simp at h
      | inr trip =>
        obtain ⟨pipe1, c1, snap⟩ := trip
        obtain ⟨hi1, hk1, hsum1, hspec1⟩ := run_unit_sec limit u pipe c pipe1 c1 snap hu hp
        obtain ⟨hi2, hk2, newSnaps, hsn, hsum2, hspec2⟩ := ih pipe1 c1 (acc ++ [snap]) h hi1
        refine ⟨hi2, by rw [hk2, hk1], snap :: newSnaps, ?_, ?_, ?_⟩
        · rw [hsn, List.append_assoc]; rfl
        · rw [hsum2, hsum1]
          simp only [List.map_cons, List.sum_cons]
          omega
        · simp only [List.map_cons, List.sum_cons, hspec2, hspec1]

theorem run_pipelines_sec (limit : Nat) (ps : List PipelineEnv) (overall : Stats) (c : Nat)
    (acc : List StatsD) (fsOut : StatsD) (snapsOut : List StatsD)
    (h : run_pipelines limit overall c acc ps = .ok (.finished fsOut snapsOut))
    (ho : secInts overall.full_stats) :
    ∃ newSnaps, snapsOut = acc ++ newSnaps ∧
      secSum fsOut = secSum overall.full_stats + (newSnaps.map secSum).sum ∧
      (newSnaps.map secSum).sum = runSpecSEC ps := by
  induction ps generalizing overall c acc with
  | nil =>
    simp only [run_pipelines, Except.ok.injEq, RunRes.finished.injEq] at h
    obtain ⟨h1, h2⟩ := h
    refine ⟨[], by rw [← h2]; simp, by rw [← h1]; simp, by simp [runSpecSEC]⟩
  | cons p rest ih =>
    simp only [run_pipelines] at h
    cases hpu : run_pipeline_units limit (Stats.init []) c [] p.units with
    | error exc => simp only [hpu] at h; exact absurd h (by simp)
    | ok r =>
      simp only [hpu] at h
      cases r with
      | inl e =>
        obtain ⟨ev, cc⟩ := e
        simp at h
      | inr trip =>
        obtain ⟨pipe1, c1, snaps1⟩ := trip
        obtain ⟨hi1, hk1, new1, hsn1, hsum1, hspec1⟩ := run_pipeline_units_sec limit p.units
          (Stats.init []) c [] pipe1 c1 snaps1 hpu
          (by rw [stats_init_nil_full]; exact secInts_default)
        rw [stats_init_nil_full] at hk1
        rw [stats_init_nil_full, secSum_default] at hsum1
        simp only [List.nil_append] at hsn1
        subst hsn1
        cases h2 : overall.add_stats pipe1.full_stats with
        | error exc => simp only [h2] at h; exact absurd h (by simp)
        | ok overall2 =>
          simp only [h2] at h
          obtain ⟨hf2, _, _⟩ := Stats.add_stats_ok overall overall2 _ h2
          have hnd : (pipe1.full_stats.map Prod.fst).Nodup := by
            rw [hk1]; exact default_keys_nodup
          have hmerge := sec_merge pipe1.full_stats overall.full_stats overall2.full_stats hf2
            hnd hi1 ho
          obtain ⟨new2, hsn2, hsum2, hspec2⟩ := ih overall2 c1 (acc ++ snaps1) h hmerge.1
          refine ⟨snaps1 ++ new2, by rw [hsn2, List.append_assoc], ?_, ?_⟩
          · rw [hsum2, hmerge.2, hsum1]
            simp only [List.map_append, List.sum_append]
            omega
          · simp only [List.map_append, List.sum_append, hspec2, hspec1]
            simp [runSpecSEC, pipeSpecSEC]

/-! ## The claims -/

/-- C2: the spec says a non-empty response whose `finish_reason` equals the
truncation sentinel emitted by the generation collaborator (`"MAX_TOKENS"`,
as normalized by `CustomModel.__generate_google`) makes `check_special_errors`
set `max_token` and return fail. In the code the comparison is against
`"MAX_TOKEN"` (missing the final `S`), which the sentinel never equals: on a
non-empty text with the emitted sentinel the classifier sets no flag and
returns pass, so the `max_token` flag is unreachable for any value the
generator produces. -/
theorem claim2_max_token_sentinel_mismatch :
    google_finish_reason "MAX_TOKENS" = "MAX_TOKENS" ∧
    alGet DEFAULT_ERRORS "max_token" = some false ∧
    check_special_errors DEFAULT_ERRORS "some text" (some (google_finish_reason "MAX_TOKENS"))
      = .ok (DEFAULT_ERRORS, true) :=
  ⟨rfl, rfl, rfl⟩

/-- C7: starting from the fresh all-false `DEFAULT_ERRORS`, whatever text and
finish reason the classifier is given, at most one of `empty_output`,
`max_token`, `recitation` is set when it returns: the three conditions form
a strict precedence chain and the first that fires returns immediately. -/
theorem claim7_classifier_flags_exclusive (t : String) (fr : Option String)
    (e' : ErrDict) (b : Bool)
    (h : check_special_errors DEFAULT_ERRORS t fr = .ok (e', b)) :
    classifierFlagCount e' ≤ 1 := by
  cases fr with
  | none =>
    simp only [check_special_errors] at h
    by_cases ht : t.length = 0
    · rw [if_pos ht] at h
      simp only [Except.ok.injEq, Prod.mk.injEq] at h
      rw [← h.1]
      decide
    · rw [if_neg ht] at h
      exact absurd h (by simp)
  | some fr =>
    simp only [check_special_errors] at h
    by_cases ht : t.length = 0
    · rw [if_pos ht] at h
      simp only [Except.ok.injEq, Prod.mk.injEq] at h
      rw [← h.1]
      decide
    · rw [if_neg ht] at h
      by_cases h1 : pyUpper fr = "MAX_TOKEN"
      · rw [if_pos h1] at h
        simp only [Except.ok.injEq, Prod.mk.injEq] at h
        rw [← h.1]
        decide
      · rw [if_neg h1] at h
        by_cases h2 : pyUpper fr = "RECITATION"
        · rw [if_pos h2] at h
          simp only [Except.ok.injEq, Prod.mk.injEq] at h
          rw [← h.1]
          decide
        · rw [if_neg h2] at h
          simp only [Except.ok.injEq, Prod.mk.injEq] at h
          rw [← h.1]
          decide

/-- Witness for C7 at a concrete input: the empty text sets only
`empty_output`. -/
theorem claim7_classifier_flags_exclusive_witness :
    classifierFlagCount (alSet DEFAULT_ERRORS "empty_output" true) ≤ 1 :=
  claim7_classifier_flags_exclusive "" none (alSet DEFAULT_ERRORS "empty_output" true) false rfl

/-- C8: on a text that already parses, `validate_json_response` returns the
direct parse with `wasFixed = false`, leaves the error dictionary untouched
and raises nothing — step 1 of the repair engine short-circuits. -/
theorem claim8_repair_idempotent_on_valid (fuel : Nat) (errs : ErrDict)
    (s : List Char) (v : PyVal) (h : json_loads_list s = .ok v) :
    validate_json_response fuel errs s = some (.ok (errs, some v, some false)) := by
  unfold validate_json_response
  rw [h]

/-- Witness for C8 at a concrete input. -/
theorem claim8_repair_idempotent_on_valid_witness :
    validate_json_response 5 DEFAULT_ERRORS "[1, 2]".toList
      = some (.ok (DEFAULT_ERRORS, some (.list [.int 1, .int 2]), some false)) :=
  claim8_repair_idempotent_on_valid 5 DEFAULT_ERRORS "[1, 2]".toList (.list [.int 1, .int 2]) rfl

/-- C10: `check_special_errors` is total only when the text is empty or a
finish reason string is supplied: a non-empty text with the `None` default
raises `AttributeError` at `finish_reason.upper()`, while the empty text
sets `empty_output` and returns fail without ever inspecting `finish_reason`. -/
theorem claim10_classifier_none_finish_reason (errs : ErrDict) (t : String)
    (fr : Option String) (ht : t ≠ "") :
    check_special_errors errs t none = .error .attributeError ∧
    check_special_errors errs "" fr = .ok (alSet errs "empty_output" true, false) := by
  constructor
  · unfold check_special_errors
    have hlen : t.length ≠ 0 := by
      intro h0
      apply ht
      obtain ⟨data⟩ := t
      have : data.length = 0 := h0
      have hdata : data = [] := List.length_eq_zero.mp this
      rw [hdata]
    rw [if_neg hlen]
  · unfold check_special_errors
    rw [if_pos (by rfl)]

/-- Witness for C10 at a concrete input. -/
theorem claim10_classifier_none_finish_reason_witness :
    check_special_errors DEFAULT_ERRORS "x" none = .error .attributeError ∧
    check_special_errors DEFAULT_ERRORS "" (some "RECITATION")
      = .ok (alSet DEFAULT_ERRORS "empty_output" true, false) :=
  claim10_classifier_none_finish_reason DEFAULT_ERRORS "x" (some "RECITATION") (by decide)

/-- C3, counterexample: at the failure ceiling the abort path emits only the
three diagnostic prints of `max_fail_exit` and exit code 1 — no ledger flush
event reaches the output sink, contradicting the claim that the stats and
skip-audit ledgers gathered so far are flushed before the process exits. -/
theorem claim3_counterexample :
    attempt_step 1 (Stats.init []) 0 (.unexpected "boom")
      = .ok (.exited [.print "Max fail limit reached", .print "Error: boom",
          .print "Exiting..."] 1) ∧
    ([Ev.print "Max fail limit reached", .print "Error: boom",
      .print "Exiting..."].filter (fun e => e.isStatsWrite)) = [] :=
  ⟨rfl, rfl⟩

/-- C3, amended: when the run-wide unexpected-failure counter reaches
`max_fail_limit` the attempt loop calls `max_fail_exit`, which terminates
the run with exit code 1 after printing three diagnostics; the ledgers
gathered so far are *not* flushed on this path (the source carries a `TODO`
to save stats), so every emitted event is a print and none is a stats
write. -/
theorem claim3_abort_without_flush (limit : Nat) (st : Stats) (counter : Nat)
    (msg : String) (r : StepRes)
    (h : attempt_step limit st counter (.unexpected msg) = .ok r)
    (hc : limit ≤ counter + 1) :
    r = .exited (max_fail_exit msg).1 1 ∧
    ∀ e ∈ (max_fail_exit msg).1, e.isStatsWrite = false := by
  unfold attempt_step at h
  cases h1 : st.add_stats [("request", .int 1)] with
  | error exc => simp only [h1] at h; exact absurd h (by simp)
  | ok st1 =>
    simp only [h1] at h
    cases h2 : st1.add_unexpected_error msg with
    | error exc => simp only [h2] at h; exact absurd h (by simp)
    | ok st2 =>
      simp only [h2] at h
      rw [if_pos hc] at h
      simp only [Except.ok.injEq] at h
      refine ⟨h.symm, ?_⟩
      intro e he
      simp only [max_fail_exit, List.mem_cons, List.not_mem_nil, or_false] at he
      rcases he with rfl | rfl | rfl <;> rfl

/-- Witness for C3's amended theorem at a concrete input. -/
theorem claim3_abort_without_flush_witness :
    (StepRes.exited (max_fail_exit "boom").1 1 = .exited (max_fail_exit "boom").1 1) ∧
    ∀ e ∈ (max_fail_exit "boom").1, e.isStatsWrite = false :=
  claim3_abort_without_flush 1 (Stats.init []) 0 "boom"
    (.exited (max_fail_exit "boom").1 1) rfl (by decide)

/-- C4, counterexample: `Stats.add_stats` checks `isinstance` only on the
*incoming* value; when a matching key currently holds a non-numeric ledger
value (here the string extra stat `model_name`) and the input value is
numeric, the `+=` raises `TypeError` — the claim that the merge never errors
for every input dictionary is false. -/
theorem claim4_counterexample :
    Stats.add_stats ⟨[("model_name", .str "m")], [], []⟩ [("model_name", .int 1)]
      = .error .typeError :=
  rfl

/-- The totality core of C4's amended claim, on the ledger dict fold. -/
theorem add_stats_fold_total (inp : List (String × StatVal)) (fs : StatsD)
    (h : allNumD fs) :
    ∃ fs', add_stats_fold inp fs = .ok fs' ∧ allNumD fs' ∧
      (∀ k, (∀ v, (k, v) ∈ inp → isNumV v = false) → alGet fs' k = alGet fs k) := by
  induction inp generalizing fs with
  | nil => exact ⟨fs, rfl, h, fun _ _ => rfl⟩
  | cons hd t ih =>
    obtain ⟨k1, v1⟩ := hd
    cases halg : alGet fs k1 with
    | none =>
      obtain ⟨fs', heq, hn', hpres⟩ := ih fs h
      refine ⟨fs', ?_, hn', ?_⟩
      · simp only [add_stats_fold, halg]
        exact heq
      · intro k hk
        exact hpres k (fun v hv => hk v (List.mem_cons_of_mem _ hv))
    | some old =>
      cases hnum : isNumV v1 with
      | false =>
        obtain ⟨fs', heq, hn', hpres⟩ := ih fs h
        refine ⟨fs', ?_, hn', ?_⟩
        · simp only [add_stats_fold, halg, hnum]
          exact heq
        · intro k hk
          exact hpres k (fun v hv => hk v (List.mem_cons_of_mem _ hv))
      | true =>
        have hold : isNumV old = true := h (k1, old) (mem_of_alGet fs k1 old halg)
        obtain ⟨nv, hadd, hnv⟩ := pyAdd_num old v1 hold hnum
        obtain ⟨fs', heq, hn', hpres⟩ := ih (alSet fs k1 nv) (allNum_alSet fs k1 nv h hnv)
        refine ⟨fs', ?_, hn', ?_⟩
        · simp only [add_stats_fold, halg, hnum, hadd]
          exact heq
        · intro k hk
          have hk1 : k ≠ k1 := by
            intro he
            subst he
            exact absurd hnum (by rw [hk v1 (by simp)]; simp)
          rw [hpres k (fun v hv => hk v (List.mem_cons_of_mem _ hv)),
            alGet_alSet, if_neg hk1]

/-- With the unique keys of a Python input dict, a matching numeric input
entry is summed into the ledger by Python's `+`: the resulting value at its
key is exactly `old + value`. -/
theorem add_stats_fold_sum_nodup (k : String) (v old : StatVal) (hv : isNumV v = true) :
    ∀ (inp : List (String × StatVal)) (fs fs' : StatsD),
      add_stats_fold inp fs = .ok fs' →
      (inp.map Prod.fst).Nodup →
      (k, v) ∈ inp →
      alGet fs k = some old →
      ∃ nv, pyAdd old v = .ok nv ∧ alGet fs' k = some nv := by
  intro inp
  induction inp with
  | nil =>
    intro fs fs' h hnd hmem hold
    simp at hmem
  | cons hd t ih =>
    intro fs fs' h hnd hmem hold
    obtain ⟨k1, v1⟩ := hd
    simp only [List.map_cons, List.nodup_cons] at hnd
    rcases List.mem_cons.mp hmem with heq | hmem'
    · rw [Prod.mk.injEq] at heq
      obtain ⟨hkk, hvv⟩ := heq
      subst hkk
      subst hvv
      simp only [add_stats_fold, hold, hv] at h
      cases hadd : pyAdd old v with
      | error exc =>
        simp only [hadd] at h
        exact absurd h (by simp)
      | ok nv =>
        simp only [hadd] at h
        refine ⟨nv, rfl, ?_⟩
        have hpres := add_stats_fold_preserves t (alSet fs k nv) fs' h k hnd.1
        rw [hpres, alGet_alSet, if_pos rfl]
    · have hk1 : k1 ≠ k := by
        intro he
        subst he
        exact hnd.1 (List.mem_map.mpr ⟨(k1, v), hmem', rfl⟩)
      simp only [add_stats_fold] at h
      split at h
      · split at h
        · rename_i old1 _ heq1 _ nv1 hadd1
          have hold2 : alGet (alSet fs k1 nv1) k = some old := by
            rw [alGet_alSet, if_neg (fun hh : k = k1 => hk1 hh.symm)]
            exact hold
          exact ih (alSet fs k1 nv1) fs' h hnd.2 hmem' hold2
        · exact absurd h (by simp)
      · exact ih fs fs' h hnd.2 hmem' hold

/-- C4, amended: for every ledger whose current values are all numeric,
`Stats.add_stats` returns normally on every input dictionary, adds no new
keys, keeps the ledger numeric, *sums* each matching numeric input entry
into the ledger with Python's `+` (for an input with the unique keys of a
Python dict, the value at a matching key whose input value is numeric
becomes exactly `old + value`), leaves keys absent from the input untouched
and ignores input entries whose values are non-numeric; it can raise
`TypeError` only when a matching ledger value is itself non-numeric. -/
theorem claim4_numeric_ledger_merge (st : Stats) (inp : List (String × StatVal))
    (hnum : allNumD st.full_stats) :
    ∃ st', st.add_stats inp = .ok st' ∧
      st'.full_stats.map Prod.fst = st.full_stats.map Prod.fst ∧
      allNumD st'.full_stats ∧
      ((inp.map Prod.fst).Nodup →
        ∀ k v old, (k, v) ∈ inp → isNumV v = true → alGet st.full_stats k = some old →
          ∃ nv, pyAdd old v = .ok nv ∧ alGet st'.full_stats k = some nv) ∧
      (∀ k, k ∉ inp.map Prod.fst → alGet st'.full_stats k = alGet st.full_stats k) ∧
      (∀ k, (∀ v, (k, v) ∈ inp → isNumV v = false) →
        alGet st'.full_stats k = alGet st.full_stats k) := by
  obtain ⟨fs', heq, hn', hpres⟩ := add_stats_fold_total inp st.full_stats hnum
  refine ⟨{ st with full_stats := fs' }, ?_, ?_, hn', ?_, ?_, hpres⟩
  · unfold Stats.add_stats
    rw [heq]
  · exact add_stats_fold_keys inp st.full_stats fs' heq
  · intro hnd k v old hmem hv hold
    exact add_stats_fold_sum_nodup k v old hv inp st.full_stats fs' heq hnd hmem hold
  · intro k hk
    exact add_stats_fold_preserves inp st.full_stats fs' heq k hk

/-- Witness for C4's amended theorem at a concrete input. -/
theorem claim4_numeric_ledger_merge_witness :
    ∃ st', (Stats.init []).add_stats [("request", .int 2), ("note", .str "x")] = .ok st' ∧
      st'.full_stats.map Prod.fst = (Stats.init []).full_stats.map Prod.fst ∧
      allNumD st'.full_stats ∧
      (([("request", StatVal.int 2), ("note", StatVal.str "x")].map Prod.fst).Nodup →
        ∀ k v old, (k, v) ∈ [("request", StatVal.int 2), ("note", StatVal.str "x")] →
          isNumV v = true → alGet (Stats.init []).full_stats k = some old →
          ∃ nv, pyAdd old v = .ok nv ∧ alGet st'.full_stats k = some nv) ∧
      (∀ k, k ∉ [("request", StatVal.int 2), ("note", StatVal.str "x")].map Prod.fst →
        alGet st'.full_stats k = alGet (Stats.init []).full_stats k) ∧
      (∀ k, (∀ v, (k, v) ∈ [("request", StatVal.int 2), ("note", StatVal.str "x")] →
          isNumV v = false) →
        alGet st'.full_stats k = alGet (Stats.init []).full_stats k) :=
  claim4_numeric_ledger_merge (Stats.init []) [("request", .int 2), ("note", .str "x")]
    (by show ∀ kv ∈ (Stats.init []).full_stats, isNumV kv.2 = true; decide)

/-- `mismatchFieldCount` unfolded one record. -/
theorem mismatchFieldCount_cons (db t : Option String) (r : PyVal) (rest : List PyVal) :
    mismatchFieldCount db t (r :: rest)
      = ((if recSrcNe db r then (1 : Int) else 0) +
         (if truthyStr t ∧ recTgtNe t r then (1 : Int) else 0)) +
        mismatchFieldCount db t rest := by
  simp [mismatchFieldCount]

/-- The fold of `check_db_id` computes the mismatching-field tally when
every record carries the keys it reads. -/
theorem check_db_id_go_spec (db t : Option String) (records : List PyVal) (f : Int)
    (hk : ∀ r ∈ records, recordHasKeys t r) :
    check_db_id_go db t records f = .ok (f + mismatchFieldCount db t records) := by
  induction records generalizing f with
  | nil => simp [check_db_id_go, mismatchFieldCount]
  | cons r rest ih =>
    obtain ⟨kvs, hr, hsrc, htgt⟩ := hk r (List.mem_cons_self _ _)
    subst hr
    obtain ⟨sv, hsv⟩ := Option.isSome_iff_exists.mp hsrc
    have hkrest : ∀ r ∈ rest, recordHasKeys t r :=
      fun r hr => hk r (List.mem_cons_of_mem _ hr)
    have hsrcNe : recSrcNe db (.dict kvs) = pyValNe sv db := by
      simp [recSrcNe, hsv]
    rw [mismatchFieldCount_cons]
    cases htr : truthyStr t with
    | false =>
      simp only [check_db_id_go, pyGetItem, hsv, htr, Bool.false_eq_true, if_false]
      rw [ih _ hkrest, hsrcNe]
      cases hne : pyValNe sv db <;> (simp [hne]; try omega)
    | true =>
      obtain ⟨tv, htv⟩ := Option.isSome_iff_exists.mp (htgt htr)
      have htgtNe : recTgtNe t (.dict kvs) = pyValNe tv t := by
        simp [recTgtNe, htv]
      simp only [check_db_id_go, pyGetItem, hsv, htv, htr, if_true]
      rw [ih _ hkrest, hsrcNe, htgtNe]
      cases hne : pyValNe sv db <;> cases hne2 : pyValNe tv t <;> (simp [hne, hne2]; try omega)

/-- C6, counterexample: a single record whose source *and* target
identifiers are both wrong is one mismatching record, yet `check_db_id`
returns `2` — the function counts mismatching identifier fields, not
mismatching records as the claim states. -/
theorem claim6_counterexample :
    check_db_id (some "A")
      [.dict [("source_db_id", .str "X"), ("target_db_id", .str "Y")]] (some "B") = .ok 2 ∧
    mismatchRecordCount (some "A") (some "B")
      [.dict [("source_db_id", .str "X"), ("target_db_id", .str "Y")]] = 1 :=
  ⟨rfl, rfl⟩

/-- C6, amended: on records carrying the identifier keys, `check_db_id`
returns the count of mismatching identifier *fields* — one per record whose
source identifier differs plus, when a target identifier is configured, one
per record whose target identifier differs, so a record wrong in both
counts twice. At the call site the check runs only when `fields_mismatch`
is not already set (when it is set the validator leaves the error dict
unchanged without evaluating `check_db_id`, even on records that would make
it crash), and a returned count greater than zero is exactly what sets
`db_id_matching`. -/
theorem claim6_identity_check (db t : String) (records : List PyVal) (errs : ErrDict)
    (ftc : List String) :
    ((∀ r ∈ records, recordHasKeys (some t) r) →
      check_db_id (some db) records (some t)
        = .ok (mismatchFieldCount (some db) (some t) records)) ∧
    (alGet errs "fields_mismatch" = some true →
      validation_step false ftc true db t records errs = .ok errs) ∧
    (alGet errs "fields_mismatch" = some false →
      (∀ r ∈ records, recordHasKeys (some t) r) →
      validation_step false ftc true db t records errs
        = .ok (if mismatchFieldCount (some db) (some t) records > 0
               then alSet errs "db_id_matching" true else errs)) := by
  refine ⟨?_, ?_, ?_⟩
  · intro hk
    unfold check_db_id
    rw [check_db_id_go_spec (some db) (some t) records 0 hk]
    simp
  · intro hfm
    unfold validation_step
    simp only [if_false, Bool.false_eq_true, false_and, hfm]
    rfl
  · intro hfm hk
    unfold validation_step
    simp only [if_false, Bool.false_eq_true, false_and, hfm]
    have hc : check_db_id (some db) records (some t)
        = .ok (mismatchFieldCount (some db) (some t) records) := by
      unfold check_db_id
      rw [check_db_id_go_spec (some db) (some t) records 0 hk]
      simp
    rw [if_pos (⟨not_false, trivial⟩ : ¬False ∧ True)]
    simp only [hc]
    split <;> rfl

/-- Witness for C6's amended theorem at a concrete input. -/
theorem claim6_identity_check_witness :
    (check_db_id (some "A") [.dict [("source_db_id", .str "A"), ("target_db_id", .str "B")]]
        (some "B")
      = .ok (mismatchFieldCount (some "A") (some "B")
          [.dict [("source_db_id", .str "A"), ("target_db_id", .str "B")]])) ∧
    (validation_step false ["question"] true "A" "B"
        [.dict [("source_db_id", .str "A"), ("target_db_id", .str "B")]]
        (alSet DEFAULT_ERRORS "fields_mismatch" true)
      = .ok (alSet DEFAULT_ERRORS "fields_mismatch" true)) ∧
    (validation_step false ["question"] true "A" "B"
        [.dict [("source_db_id", .str "A"), ("target_db_id", .str "B")]] DEFAULT_ERRORS
      = .ok (if mismatchFieldCount (some "A") (some "B")
            [.dict [("source_db_id", .str "A"), ("target_db_id", .str "B")]] > 0
          then alSet DEFAULT_ERRORS "db_id_matching" true else DEFAULT_ERRORS)) := by
  have hkeys : ∀ r ∈ [PyVal.dict [("source_db_id", PyVal.str "A"), ("target_db_id", PyVal.str "B")]],
      recordHasKeys (some "B") r := by
    intro r hr
    simp only [List.mem_singleton] at hr
    subst hr
    exact ⟨_, rfl, rfl, fun _ => rfl⟩
  have h := claim6_identity_check "A" "B"
    [.dict [("source_db_id", .str "A"), ("target_db_id", .str "B")]] DEFAULT_ERRORS ["question"]
  have h2 := claim6_identity_check "A" "B"
    [.dict [("source_db_id", .str "A"), ("target_db_id", .str "B")]]
    (alSet DEFAULT_ERRORS "fields_mismatch" true) ["question"]
  exact ⟨h.1 hkeys, h2.2.1 rfl, h.2.2 rfl hkeys⟩

/-- Whatever value the `failed` counter holds, a record list of dicts in
which some record lacks a key `check_db_id` reads makes the fold raise a
`KeyError` naming one of the two identifier keys. -/
theorem check_db_id_go_keyerror (db t : Option String) :
    ∀ (records : List PyVal),
      (∀ r ∈ records, ∃ kvs, r = PyVal.dict kvs) →
      (∃ r ∈ records, recordLacksKey t r) →
      ∀ f, ∃ k, (k = "source_db_id" ∨ k = "target_db_id") ∧
        check_db_id_go db t records f = .error (.keyError k) := by
  intro records
  induction records with
  | nil =>
    intro _ hbad f
    obtain ⟨r, hr, _⟩ := hbad
    simp at hr
  | cons r rest ih =>
    intro hdicts hbad f
    obtain ⟨kvs, hkvs⟩ := hdicts r (List.mem_cons_self _ _)
    subst hkvs
    have hdicts' : ∀ r ∈ rest, ∃ kvs, r = PyVal.dict kvs :=
      fun r hr => hdicts r (List.mem_cons_of_mem _ hr)
    cases hsv : alGet kvs "source_db_id" with
    | none =>
      refine ⟨"source_db_id", Or.inl rfl, ?_⟩
      simp only [check_db_id_go, pyGetItem, hsv]
    | some sv =>
      cases htr : truthyStr t with
      | true =>
        cases htv : alGet kvs "target_db_id" with
        | none =>
          refine ⟨"target_db_id", Or.inr rfl, ?_⟩
          simp only [check_db_id_go, pyGetItem, hsv, htr, if_true, htv]
        | some tv =>
          have hbad' : ∃ r ∈ rest, recordLacksKey t r := by
            obtain ⟨r', hr', hl⟩ := hbad
            rcases List.mem_cons.mp hr' with heq | hmem
            · exfalso
              obtain ⟨kvs2, heq2, hdis⟩ := hl
              rw [heq] at heq2
              have hkvs2 : kvs2 = kvs := by
                injection heq2.symm
              subst hkvs2
              rcases hdis with hd1 | hd2
              · rw [hsv] at hd1
                exact Option.some_ne_none sv hd1
              · rw [htv] at hd2
                exact Option.some_ne_none tv hd2.2
            · exact ⟨r', hmem, hl⟩
          obtain ⟨k, hk, hgo⟩ := ih hdicts' hbad'
            (if pyValNe tv t then (if pyValNe sv db then f + 1 else f) + 1
             else if pyValNe sv db then f + 1 else f)
          refine ⟨k, hk, ?_⟩
          simp only [check_db_id_go, pyGetItem, hsv, htr, if_true, htv]
          exact hgo
      | false =>
        have hbad' : ∃ r ∈ rest, recordLacksKey t r := by
          obtain ⟨r', hr', hl⟩ := hbad
          rcases List.mem_cons.mp hr' with heq | hmem
          · exfalso
            obtain ⟨kvs2, heq2, hdis⟩ := hl
            rw [heq] at heq2
            have hkvs2 : kvs2 = kvs := by
              injection heq2.symm
            subst hkvs2
            rcases hdis with hd1 | hd2
            · rw [hsv] at hd1
              exact Option.some_ne_none sv hd1
            · rw [htr] at hd2
              exact Bool.false_ne_true hd2.1
          · exact ⟨r', hmem, hl⟩
        obtain ⟨k, hk, hgo⟩ := ih hdicts' hbad' (if pyValNe sv db then f + 1 else f)
        refine ⟨k, hk, ?_⟩
        simp only [check_db_id_go, pyGetItem, hsv, htr, Bool.false_eq_true, if_false]
        exact hgo

/-- C9: every record list of dicts containing at least one record that lacks
`source_db_id` (or lacks `target_db_id` while a target identifier is
configured) makes `check_db_id` raise a `KeyError` naming one of the two
identifier keys instead of returning a count — wherever in the list the
defective record sits; and because the field-set check and the identity
check are enabled by independent settings, with `fields_checking` disabled
and `db_id_matching` enabled the validator call site runs `check_db_id` on
the unchecked records and the same `KeyError` escapes it. -/
theorem claim9_missing_key_raises (db t : String) (records : List PyVal)
    (ftc : List String)
    (hdicts : ∀ r ∈ records, ∃ kvs, r = PyVal.dict kvs)
    (hbad : ∃ r ∈ records, recordLacksKey (some t) r) :
    ∃ k, (k = "source_db_id" ∨ k = "target_db_id") ∧
      check_db_id (some db) records (some t) = .error (.keyError k) ∧
      validation_step false ftc true db t records DEFAULT_ERRORS
        = .error (.keyError k) := by
  obtain ⟨k, hk, hgo⟩ := check_db_id_go_keyerror (some db) (some t) records hdicts hbad 0
  have h1 : check_db_id (some db) records (some t) = .error (.keyError k) := hgo
  refine ⟨k, hk, h1, ?_⟩
  unfold validation_step
  simp only [if_false, Bool.false_eq_true, false_and]
  have hfm : alGet DEFAULT_ERRORS "fields_mismatch" = some false := rfl
  simp only [hfm, h1]
  rfl

/-- Witness for C9 at a concrete input whose defective record is *not*
first: a well-formed record followed by one lacking `source_db_id`. -/
theorem claim9_missing_key_raises_witness :
    ∃ k, (k = "source_db_id" ∨ k = "target_db_id") ∧
      check_db_id (some "A")
        [.dict [("source_db_id", .str "A"), ("target_db_id", .str "B")],
         .dict [("q", .int 1)]] (some "B") = .error (.keyError k) ∧
      validation_step false ["question"] true "A" "B"
        [.dict [("source_db_id", .str "A"), ("target_db_id", .str "B")],
         .dict [("q", .int 1)]] DEFAULT_ERRORS = .error (.keyError k) :=
  claim9_missing_key_raises "A" "B"
    [.dict [("source_db_id", .str "A"), ("target_db_id", .str "B")], .dict [("q", .int 1)]]
    ["question"]
    (by
      intro r hr
      rcases List.mem_cons.mp hr with h | h
      · exact ⟨_, h⟩
      · rcases List.mem_cons.mp h with h2 | h2
        · exact ⟨_, h2⟩
        · simp at h2)
    ⟨.dict [("q", .int 1)], List.mem_cons_of_mem _ (List.mem_cons_self _ _),
      [("q", .int 1)], rfl, Or.inl rfl⟩

/-- C1: on the spec's own single-missing-comma example, `fix_missing_comma`
does repair the text (its parse equals the parse of the manually corrected
text), but `validate_json_response` never returns that result: inside the
exception handler the leftover line `loaded_json = json.loads(response_text)`
re-parses the original, still-broken text, so the same comma-delimiter
`JSONDecodeError` is raised again and propagates out of the function instead
of the claimed `(parsed, True)` with no error flag. -/
theorem claim1_single_defect_repair_crashes :
    json_loads_list "[\x7b\"a\":1\x7d \x7b\"a\":2\x7d]".toList
      = .error ⟨.expectingCommaDelimiter, 9⟩ ∧
    fix_missing_comma 100 "[\x7b\"a\":1\x7d \x7b\"a\":2\x7d]".toList
      = some (true, some (.list [.dict [("a", .int 1)], .dict [("a", .int 2)]]), none) ∧
    json_loads_list "[\x7b\"a\":1\x7d, \x7b\"a\":2\x7d]".toList
      = .ok (.list [.dict [("a", .int 1)], .dict [("a", .int 2)]]) ∧
    validate_json_response 100 DEFAULT_ERRORS "[\x7b\"a\":1\x7d \x7b\"a\":2\x7d]".toList
      = some (.error (.jsonDecode ⟨.expectingCommaDelimiter, 9⟩)) :=
  ⟨rfl, rfl, rfl, rfl⟩

/-- C5: for every run that completes, run-level
`success_response + error_response + corrected_response` equals the sum of
those counters over the final ledger snapshots of all source units, which
equals the spec-side tally summed over all prompt batches that reached a
terminal state (every batch of a completed run does). -/
theorem claim5_ledger_sum_invariant (limit : Nat) (model_origin model_name : String)
    (ps : List PipelineEnv) (overall : StatsD) (finals : List StatsD)
    (h : run_model limit model_origin model_name ps = .ok (.finished overall finals)) :
    secSum overall = (finals.map secSum).sum ∧
    (finals.map secSum).sum = runSpecSEC ps := by
  unfold run_model at h
  have hshow : (Stats.init [("model_origin", .str model_origin),
      ("model_name", .str model_name)]).full_stats
      = alSet (alSet default_full_stats "model_origin" (.str model_origin))
          "model_name" (.str model_name) := rfl
  have g : ∀ (k : String), k ≠ "model_origin" → k ≠ "model_name" →
      alGet (alSet (alSet default_full_stats "model_origin" (.str model_origin))
        "model_name" (.str model_name)) k = alGet default_full_stats k := by
    intro k h1 h2
    rw [alGet_alSet, if_neg h2, alGet_alSet, if_neg h1]
  have e1 := g "success_response" (by decide) (by decide)
  have e2 := g "error_response" (by decide) (by decide)
  have e3 := g "corrected_response" (by decide) (by decide)
  have hini : secInts (Stats.init [("model_origin", .str model_origin),
      ("model_name", .str model_name)]).full_stats := by
    rw [hshow]
    exact ⟨by rw [e1]; decide, by rw [e2]; decide, by rw [e3]; decide⟩
  have hz : secSum (Stats.init [("model_origin", .str model_origin),
      ("model_name", .str model_name)]).full_stats = 0 := by
    rw [hshow]
    simp only [secSum, getIntD, e1, e2, e3]
    decide
  obtain ⟨newSnaps, hsn, hsum, hspec⟩ := run_pipelines_sec limit ps
    (Stats.init [("model_origin", .str model_origin), ("model_name", .str model_name)])
    0 [] overall finals h hini
  simp only [List.nil_append] at hsn
  subst hsn
  rw [hz] at hsum
  constructor
  · rw [hsum]
    omega
  · exact hspec

/-- Witness for C5 at a concrete completed run. -/
theorem claim5_ledger_sum_invariant_witness :
    secSum sampleOverall = ([sampleUnitFinal].map secSum).sum ∧
    ([sampleUnitFinal].map secSum).sum = runSpecSEC sampleRunEnv :=
  claim5_ledger_sum_invariant 5 "google" "gem" sampleRunEnv sampleOverall [sampleUnitFinal] rfl

end SQLExchange
